import Mathlib

/-
  A shallow embedding of bf-alloc.c, a best-fit heap allocator.

  Modelling conventions:
  * Addresses are natural numbers.  The header store `mem : Nat → Option Header`
    maps the address of each block header to its four fields (`next`, `prev`,
    `size`, `allocated`), mirroring `struct header` in bf-alloc.c.  Payload
    bytes live in a separate byte store `data : Nat → Nat`; the in-band layout
    is still tracked through the address arithmetic (payload = header address
    + headerSize), only the aliasing of header fields with payload bytes is
    not modelled.
  * Each C statement that reads or writes a header field becomes one `get*` /
    `set*` step, in source order, so intra-operation read/write ordering is
    exactly that of the C code.  Reads of absent headers return a junk default
    (undefined behaviour in C); the theorems' hypotheses rule those out.
  * The free-list walk in `malloc` is given fuel `end_addr + 1`; under the
    structural invariants the free list is shorter than that, so the fuel
    never runs out on the states the theorems speak about.
  * Fatal errors (ERROR(...) calls in safeio.h) are modelled as `none`
    results; normal returns are `some (returnedPointer?, newState)`.
  * `memcpy` is given its snapshot semantics, which agrees with C `memcpy`
    on every defined (non-overlapping) call.
-/

namespace BFAlloc

/-- The block header of bf-alloc.c (`header_s`): next/prev links of the list
the block currently sits on, the payload size, and the allocated flag. -/
structure Header where
  next : Option Nat
  prev : Option Nat
  size : Nat
  allocated : Bool
deriving DecidableEq, Repr

/-- The header store: a finite map from header addresses to headers. -/
abbrev Mem := Nat → Option Header

/-- `sizeof(header_s)` on an LP64 platform: two 8-byte pointers, an 8-byte
`size_t` and a `bool` padded to 8 bytes. -/
def headerSize : Nat := 32

/-- `HEAP_SIZE`, i.e. `GB(2)`. -/
def HEAP_SIZE : Nat := 2 * 1024 * 1024 * 1024

/-- `HEADER_TO_BLOCK`: from a header address to its payload address. -/
def HEADER_TO_BLOCK (hp : Nat) : Nat := hp + headerSize

/-- `BLOCK_TO_HEADER`: from a payload address to its header address. -/
def BLOCK_TO_HEADER (bp : Nat) : Nat := bp - headerSize

/-- Junk contents of a header cell that has not been written yet (reading it
models undefined behaviour; the code never does so before writing). -/
def emptyHeader : Header := ⟨none, none, 0, false⟩

/-- Read the header stored at `a` (junk default if absent). -/
def getH (m : Mem) (a : Nat) : Header := (m a).getD emptyHeader

/-- Store header `h` at address `a`. -/
def writeH (m : Mem) (a : Nat) (h : Header) : Mem :=
  fun x => if x = a then some h else m x

/-- The C statement `((header_s*)a)->next = v`. -/
def setNext (m : Mem) (a : Nat) (v : Option Nat) : Mem :=
  writeH m a { getH m a with next := v }

/-- The C statement `((header_s*)a)->prev = v`. -/
def setPrev (m : Mem) (a : Nat) (v : Option Nat) : Mem :=
  writeH m a { getH m a with prev := v }

/-- The C statement `((header_s*)a)->size = v`. -/
def setSize (m : Mem) (a : Nat) (v : Nat) : Mem :=
  writeH m a { getH m a with size := v }

/-- The C statement `((header_s*)a)->allocated = v`. -/
def setAllocated (m : Mem) (a : Nat) (v : Bool) : Mem :=
  writeH m a { getH m a with allocated := v }

/-- The C expression `((header_s*)a)->next`. -/
def getNext (m : Mem) (a : Nat) : Option Nat := (getH m a).next

/-- The C expression `((header_s*)a)->prev`. -/
def getPrev (m : Mem) (a : Nat) : Option Nat := (getH m a).prev

/-- The C expression `((header_s*)a)->size`. -/
def getSize (m : Mem) (a : Nat) : Nat := (getH m a).size

/-- The C expression `((header_s*)a)->allocated`. -/
def getAllocated (m : Mem) (a : Nat) : Bool := (getH m a).allocated

/-- The allocator's global state: the five module-level variables of
bf-alloc.c plus the two stores. -/
structure AllocState where
  free_addr : Nat
  start_addr : Nat
  end_addr : Nat
  free_list_head : Option Nat
  alloc_list_head : Option Nat
  mem : Mem
  data : Nat → Nat

/-- `init()`: on first use (start_addr == 0) reserve the heap region `[base,
base + HEAP_SIZE)` and set the bump cursor to its base; otherwise a no-op.
`base` stands for the address returned by `mmap` (a successful mapping;
failure of `mmap` is fatal and ends the run before any state change). -/
def init (base : Nat) (s : AllocState) : AllocState :=
  if s.start_addr = 0 then
    { s with start_addr := base, end_addr := base + HEAP_SIZE, free_addr := base }
  else s

/-- The amount the bump cursor is advanced by before placing a header, so
that the payload comes out 16-byte aligned (bf-alloc.c lines 236-241). -/
def bumpPad (free : Nat) : Nat :=
  if (headerSize + free) % 16 ≠ 0 then 16 - (headerSize + free) % 16 else 0

/-- `size_t` arithmetic is modulo `2^64`. -/
def SIZE_T_MOD : Nat := 2 ^ 64

/-- The candidate test of bf-alloc.c lines 173-174: the current free block
`c` (of stored size `cs`) becomes the new best fit iff either there is no
best fit yet and `size <= cs`, or there is one and `size <= cs` and `cs`
is strictly below the best fit's size. -/
def qualifies (size cs : Nat) (best : Option (Nat × Nat)) : Prop :=
  (best = none ∧ size ≤ cs) ∨ (best ≠ none ∧ size ≤ cs ∧ cs < (best.map Prod.snd).getD 0)

instance (size cs : Nat) (best : Option (Nat × Nat)) : Decidable (qualifies size cs best) := by
  unfold qualifies
  infer_instance

/-- The best-fit search loop of `malloc` (bf-alloc.c lines 164-186).  Walks
the free list from `hd`, carrying the current best candidate together with
its size.  `none` models the fatal `ERROR("Allocated block on free list")`
(and the undefined behaviour of walking a dangling pointer, which cannot
happen on the states the theorems speak about); `some best` is normal loop
exit. -/
def findBest (m : Mem) (size : Nat) :
    Nat → Option Nat → Option (Nat × Nat) → Option (Option (Nat × Nat))
  | _, none, best => some best
  | 0, some _, _ => none
  | fuel + 1, some cur, best =>
    match m cur with
    | none => none
    | some h =>
      if h.allocated then none
      else
        let best' := if qualifies size h.size best then some (cur, h.size) else best
        if best'.map Prod.snd = some size then some best'
        else findBest m size fuel h.next best'

/-- `malloc(size)` (bf-alloc.c lines 148-282), one `let` per C statement. -/
def malloc (base : Nat) (s0 : AllocState) (size : Nat) :
    Option (Option Nat × AllocState) :=
  let s := init base s0
  if size = 0 then some (none, s)
  else
    match findBest s.mem size (s.end_addr + 1) s.free_list_head none with
    | none => none
    | some (some (best, _)) =>
      -- lines 201-210: remove the best-fit block from the free list
      let s1 :=
        match getPrev s.mem best with
        | none => { s with free_list_head := getNext s.mem best }
        | some p => { s with mem := setNext s.mem p (getNext s.mem best) }
      let s2 :=
        match getNext s1.mem best with
        | none => s1
        | some nx => { s1 with mem := setPrev s1.mem nx (getPrev s1.mem best) }
      -- lines 217-226: push it onto the allocated list
      let s3 := { s2 with mem := setNext s2.mem best s2.alloc_list_head }
      let s4 := { s3 with alloc_list_head := some best }
      let s5 := { s4 with mem := setPrev s4.mem best none }
      let s6 :=
        match getNext s5.mem best with
        | none => s5
        | some nx => { s5 with mem := setPrev s5.mem nx (some best) }
      let s7 := { s6 with mem := setAllocated s6.mem best true }
      some (some (HEADER_TO_BLOCK best), s7)
    | some none =>
      -- lines 236-276: pointer-bumping path
      let padding := bumpPad s.free_addr
      let s1 := { s with free_addr := s.free_addr + padding }
      let hp := s1.free_addr
      let blockPtr := HEADER_TO_BLOCK hp
      -- lines 253-262: write the new header and link it onto the allocated list
      let s2 := { s1 with mem := setNext s1.mem hp s1.alloc_list_head }
      let s3 := { s2 with alloc_list_head := some hp }
      let s4 := { s3 with mem := setPrev s3.mem hp none }
      let s5 := { s4 with mem := setSize s4.mem hp size }
      let s6 := { s5 with mem := setAllocated s5.mem hp true }
      let s7 :=
        match getNext s6.mem hp with
        | none => s6
        | some nx => { s6 with mem := setPrev s6.mem nx (some hp) }
      let new_free_addr := (blockPtr + size) % SIZE_T_MOD
      -- line 264: 64-bit size_t sum, wrapping; lines 267-276: bounds
      -- check, after the header write and list push
      if s7.end_addr < new_free_addr then some (none, s7)
      else some (some blockPtr, { s7 with free_addr := new_free_addr })

/-- `free(ptr)` (bf-alloc.c lines 294-339), one `let` per C statement.
`none` models the fatal double-free `ERROR`. -/
def free (s : AllocState) (ptr : Option Nat) : Option AllocState :=
  match ptr with
  | none => some s
  | some p =>
    let hp := BLOCK_TO_HEADER p
    if getAllocated s.mem hp = false then none
    else
      -- lines 314-323: remove the block from the allocated list
      let s1 :=
        match getPrev s.mem hp with
        | none => { s with alloc_list_head := getNext s.mem hp }
        | some pv => { s with mem := setNext s.mem pv (getNext s.mem hp) }
      let s2 :=
        match getNext s1.mem hp with
        | none => s1
        | some nx => { s1 with mem := setPrev s1.mem nx (getPrev s1.mem hp) }
      -- lines 329-337: push it onto the free list
      let s3 := { s2 with mem := setNext s2.mem hp s2.free_list_head }
      let s4 := { s3 with free_list_head := some hp }
      let s5 := { s4 with mem := setPrev s4.mem hp none }
      let s6 :=
        match getNext s5.mem hp with
        | none => s5
        | some nx => { s5 with mem := setPrev s5.mem nx (some hp) }
      some { s6 with mem := setAllocated s6.mem hp false }

/-- `memset(p, 0, n)` on the byte store. -/
def memset0 (d : Nat → Nat) (p n : Nat) : Nat → Nat :=
  fun a => if p ≤ a ∧ a < p + n then 0 else d a

/-- `memcpy(dst, src, n)` on the byte store, with snapshot semantics (C
`memcpy` requires the ranges not to overlap; on every such defined call the
two semantics agree). -/
def memcpy (d : Nat → Nat) (dst src n : Nat) : Nat → Nat :=
  fun a => if dst ≤ a ∧ a < dst + n then d (src + (a - dst)) else d a

/-- `calloc(nmemb, size)` (bf-alloc.c lines 353-366).  The multiplication is
the unchecked `size_t` product, wrapping modulo `2^64`. -/
def calloc (base : Nat) (s : AllocState) (nmemb size : Nat) :
    Option (Option Nat × AllocState) :=
  let block_size := (nmemb * size) % SIZE_T_MOD
  match malloc base s block_size with
  | none => none
  | some (none, s') => some (none, s')
  | some (some p, s') => some (some p, { s' with data := memset0 s'.data p block_size })

/-- `realloc(ptr, size)` (bf-alloc.c lines 384-416). -/
def realloc (base : Nat) (s : AllocState) (ptr : Option Nat) (size : Nat) :
    Option (Option Nat × AllocState) :=
  match ptr with
  | none => malloc base s size
  | some p =>
    if size = 0 then
      match free s (some p) with
      | none => none
      | some s' => some (none, s')
    else
      let hp := BLOCK_TO_HEADER p
      if size ≤ getSize s.mem hp then some (some p, s)
      else
        match malloc base s size with
        | none => none
        | some (none, s1) => some (none, s1)
        | some (some np, s1) =>
          let s2 := { s1 with data := memcpy s1.data np p (getSize s1.mem hp) }
          match free s2 (some p) with
          | none => none
          | some s3 => some (some np, s3)

/-- The best-fit loop of `malloc`, rephrased as a pure fold over the list of
(address, stored size) pairs of the free list; `findBest` computes exactly
this on every state whose free list is a well-formed chain. -/
def loopSpec (size : Nat) : Option (Nat × Nat) → List (Nat × Nat) → Option (Nat × Nat)
  | best, [] => best
  | best, (a, sz) :: rest =>
    let best' := if qualifies size sz best then some (a, sz) else best
    if best'.map Prod.snd = some size then best' else loopSpec size best' rest

/-- The (address, stored size) pairs of the headers listed in `xs`. -/
def sized (m : Mem) (xs : List Nat) : List (Nat × Nat) :=
  xs.map (fun a => (a, getSize m a))

/-- The public operations, as one step relation over the allocator state. -/
inductive Op where
  | alloc (size : Nat)
  | dealloc (ptr : Option Nat)
  | allocZeroed (nmemb size : Nat)
  | resize (ptr : Option Nat) (size : Nat)
deriving DecidableEq, Repr

/-- One public call.  `none` is a fatal error; `some (r, s')` returns
pointer `r` (payload address or null) in state `s'`. -/
def step (base : Nat) (s : AllocState) : Op → Option (Option Nat × AllocState)
  | .alloc n => malloc base s n
  | .dealloc p => (free s p).map (fun s' => (none, s'))
  | .allocZeroed n k => calloc base s n k
  | .resize p n => realloc base s p n

/-- `xs` lists, in order, the header addresses of the doubly-linked list
whose head pointer is `hd` and whose first element's `prev` field is `pv`
(the spec's symmetric-link discipline: each element's `prev` names its
predecessor, the last element's `next` is null). -/
def chain (m : Mem) : Option Nat → Option Nat → List Nat → Prop
  | _, hd, [] => hd = none
  | pv, hd, a :: xs =>
    hd = some a ∧ ∃ h, m a = some h ∧ h.prev = pv ∧ chain m (some a) h.next xs

/-- A front segment of a doubly-linked list: following `xs` from link state
`(pv, hd)` leaves the walk in link state `(pv', hd')`. -/
def chainSeg (m : Mem) :
    Option Nat → Option Nat → List Nat → Option Nat → Option Nat → Prop
  | pv, hd, [], pv', hd' => pv' = pv ∧ hd' = hd
  | pv, hd, a :: xs, pv', hd' =>
    hd = some a ∧ ∃ h, m a = some h ∧ h.prev = pv ∧ chainSeg m (some a) h.next xs pv' hd'

/-- The list-structure invariant of the spec (§3, invariants 1 and 2),
relative to explicit listings `fs` and `as` of the two lists: both heads
start well-formed symmetric chains, no header is listed twice or on both
lists, the `allocated` flag matches the list a header is on, and every
header in the store is on one of the two lists. -/
def listInvWith (s : AllocState) (fs as : List Nat) : Prop :=
  chain s.mem none s.free_list_head fs ∧
  chain s.mem none s.alloc_list_head as ∧
  (fs ++ as).Nodup ∧
  (∀ a ∈ fs, getAllocated s.mem a = false) ∧
  (∀ a ∈ as, getAllocated s.mem a = true) ∧
  (∀ a, (s.mem a).isSome → a ∈ fs ∨ a ∈ as)

/-- The list-structure invariant (spec §3, invariants 1 and 2). -/
def listInv (s : AllocState) : Prop := ∃ fs as, listInvWith s fs as

/-- Spec §3 invariant 3 (containment): every header's block lies entirely
below the bump cursor, and the cursor inside the region. -/
def contained (s : AllocState) : Prop :=
  (∀ a h, s.mem a = some h → a + headerSize + h.size ≤ s.free_addr) ∧
  s.free_addr ≤ s.end_addr

/-- Spec §3 invariant 4: every payload address is 16-byte aligned. -/
def aligned16 (s : AllocState) : Prop :=
  ∀ a, (s.mem a).isSome → (a + headerSize) % 16 = 0

/-- Derived form of the header store after migrating block `b` (with old
header contents `hb`) from one list onto the head of the other list whose
old head was `newHead`: proven below to be the net effect of the pointer
surgery in `malloc`'s hit path (`newHead` the old allocated head, `flag`
true) and in `free` (`newHead` the old free head, `flag` false), whenever
`b`, its two neighbours and `newHead` are four distinct addresses. -/
def migrateMem (m : Mem) (b : Nat) (hb : Header) (newHead : Option Nat) (flag : Bool) : Mem :=
  fun x =>
    if x = b then some ⟨newHead, none, hb.size, flag⟩
    else if hb.prev = some x then some { getH m x with next := hb.next }
    else if hb.next = some x then some { getH m x with prev := hb.prev }
    else if newHead = some x then some { getH m x with prev := some b }
    else m x

/-- Derived form of the header store after `malloc`'s bump path placed a
fresh header at `fa` and pushed it onto the allocated list whose old head
was `ah`: proven below to be the net effect of lines 253-262. -/
def bumpMem (m : Mem) (fa size : Nat) (ah : Option Nat) : Mem :=
  fun x =>
    if x = fa then some ⟨ah, none, size, true⟩
    else if ah = some x then some { getH m x with prev := some fa }
    else m x

/-- A whole test run: the public calls of `ops` performed in order, failing
as soon as one call is fatal. -/
def run (base : Nat) (s : AllocState) : List Op → Option AllocState
  | [] => some s
  | op :: ops =>
    match step base s op with
    | none => none
    | some (_, s') => run base s' ops

/- ===================================================================
   Concrete states the theorems are evaluated on.
   =================================================================== -/

/-- An initialized empty region: base 16, end 1000, no headers yet. -/
def w0 : AllocState :=
  { free_addr := 16, start_addr := 16, end_addr := 1000,
    free_list_head := none, alloc_list_head := none,
    mem := fun _ => none, data := fun _ => 0 }

/-- One allocated block: header at 16, payload 48 of stored size 5, bump
cursor at 53. -/
def w1 : AllocState :=
  { free_addr := 53, start_addr := 16, end_addr := 1000,
    free_list_head := none, alloc_list_head := some 16,
    mem := fun a => if a = 16 then some ⟨none, none, 5, true⟩ else none,
    data := fun a => a }

/-- One free block of stored size 20: header at 16, bump cursor at 120. -/
def w2 : AllocState :=
  { free_addr := 120, start_addr := 16, end_addr := 1000,
    free_list_head := some 16, alloc_list_head := none,
    mem := fun a => if a = 16 then some ⟨none, none, 20, false⟩ else none,
    data := fun _ => 0 }

/-- One allocated block (header 16, stored size 5, bump cursor 53) in a
region that ends at 60, so any further allocation must fail the bound
check. -/
def w3 : AllocState :=
  { free_addr := 53, start_addr := 16, end_addr := 60,
    free_list_head := none, alloc_list_head := some 16,
    mem := fun a => if a = 16 then some ⟨none, none, 5, true⟩ else none,
    data := fun a => a }

/-- A fresh region too small for a 200-byte block: bump at 16, end 100. -/
def c2state : AllocState :=
  { free_addr := 16, start_addr := 16, end_addr := 100,
    free_list_head := none, alloc_list_head := none,
    mem := fun _ => none, data := fun _ => 0 }

/-- A state satisfying the list-structure invariant whose bump cursor
aliases the one linked header at 48 — the shape a failed bump-path
allocation leaves behind. -/
def c3state : AllocState :=
  { free_addr := 48, start_addr := 16, end_addr := 100,
    free_list_head := none, alloc_list_head := some 48,
    mem := fun a => if a = 48 then some ⟨none, none, 5, true⟩ else none,
    data := fun _ => 0 }

/-- An initialized region `[16, 1000]` with the bump cursor at 100 and no
headers: the near-`2^64` request of the theorems below wraps the 64-bit
`new_free_addr` sum to 0 there. -/
def c9state : AllocState :=
  { free_addr := 100, start_addr := 16, end_addr := 1000,
    free_list_head := none, alloc_list_head := none,
    mem := fun _ => none, data := fun _ => 0 }

/- ===================================================================
   Basic lemmas about the list chains.
   =================================================================== -/

theorem chain_nil (m : Mem) (pv hd : Option Nat) : chain m pv hd [] ↔ hd = none :=
  Iff.rfl

theorem chain_cons (m : Mem) (pv hd : Option Nat) (a : Nat) (xs : List Nat) :
    chain m pv hd (a :: xs) ↔
      hd = some a ∧ ∃ h, m a = some h ∧ h.prev = pv ∧ chain m (some a) h.next xs :=
  Iff.rfl

theorem chain_congr (m m₂ : Mem) :
    ∀ (xs : List Nat) (pv hd : Option Nat), (∀ y ∈ xs, m₂ y = m y) →
      chain m pv hd xs → chain m₂ pv hd xs := by
  intro xs
  induction xs with
  | nil => intro pv hd _ h; exact h
  | cons a xs ih =>
    intro pv hd hag hch
    obtain ⟨hhd, h, hma, hprev, hrest⟩ := hch
    refine ⟨hhd, h, ?_, hprev, ?_⟩
    · rw [hag a (List.mem_cons_self a xs)]; exact hma
    · exact ih (some a) h.next (fun y hy => hag y (List.mem_cons_of_mem a hy)) hrest

theorem chain_mem_isSome (m : Mem) :
    ∀ (xs : List Nat) (pv hd : Option Nat), chain m pv hd xs →
      ∀ a ∈ xs, (m a).isSome := by
  intro xs
  induction xs with
  | nil => intro _ _ _ a ha; cases ha
  | cons b xs ih =>
    intro pv hd hch a ha
    obtain ⟨hhd, h, hmb, hprev, hrest⟩ := hch
    rcases List.mem_cons.mp ha with rfl | ha
    · rw [hmb]; rfl
    · exact ih (some b) h.next hrest a ha

theorem chainSeg_nil (m : Mem) (pv hd pv' hd' : Option Nat) :
    chainSeg m pv hd [] pv' hd' ↔ pv' = pv ∧ hd' = hd :=
  Iff.rfl

theorem chainSeg_cons (m : Mem) (pv hd pv' hd' : Option Nat) (a : Nat) (xs : List Nat) :
    chainSeg m pv hd (a :: xs) pv' hd' ↔
      hd = some a ∧ ∃ h, m a = some h ∧ h.prev = pv ∧ chainSeg m (some a) h.next xs pv' hd' :=
  Iff.rfl

theorem chain_of_chainSeg (m : Mem) :
    ∀ (xs : List Nat) (pv hd pv' : Option Nat),
      chainSeg m pv hd xs pv' none → chain m pv hd xs := by
  intro xs
  induction xs with
  | nil => intro pv hd pv' h; exact h.2.symm
  | cons a xs ih =>
    intro pv hd pv' h
    obtain ⟨hhd, hh, hma, hprev, hrest⟩ := h
    exact ⟨hhd, hh, hma, hprev, ih (some a) hh.next pv' hrest⟩

theorem chainSeg_of_chain (m : Mem) :
    ∀ (xs : List Nat) (pv hd : Option Nat),
      chain m pv hd xs → ∃ pv', chainSeg m pv hd xs pv' none := by
  intro xs
  induction xs with
  | nil => intro pv hd h; exact ⟨pv, rfl, h.symm⟩
  | cons a xs ih =>
    intro pv hd h
    obtain ⟨hhd, hh, hma, hprev, hrest⟩ := h
    obtain ⟨pv', hseg⟩ := ih (some a) hh.next hrest
    exact ⟨pv', hhd, hh, hma, hprev, hseg⟩

theorem chainSeg_append_iff (m : Mem) :
    ∀ (xs ys : List Nat) (pv hd pv'' hd'' : Option Nat),
      chainSeg m pv hd (xs ++ ys) pv'' hd'' ↔
        ∃ pv' hd', chainSeg m pv hd xs pv' hd' ∧ chainSeg m pv' hd' ys pv'' hd'' := by
  intro xs
  induction xs with
  | nil =>
    intro ys pv hd pv'' hd''
    constructor
    · intro h; exact ⟨pv, hd, ⟨rfl, rfl⟩, h⟩
    · rintro ⟨pv', hd', ⟨rfl, rfl⟩, h⟩; exact h
  | cons a xs ih =>
    intro ys pv hd pv'' hd''
    constructor
    · rintro ⟨hhd, h, hma, hprev, hrest⟩
      obtain ⟨pv', hd', h1, h2⟩ := (ih ys (some a) h.next pv'' hd'').mp hrest
      exact ⟨pv', hd', ⟨hhd, h, hma, hprev, h1⟩, h2⟩
    · rintro ⟨pv', hd', ⟨hhd, h, hma, hprev, h1⟩, h2⟩
      exact ⟨hhd, h, hma, hprev, (ih ys (some a) h.next pv'' hd'').mpr ⟨pv', hd', h1, h2⟩⟩

theorem chainSeg_end_mem (m : Mem) :
    ∀ (xs : List Nat) (pv hd pv' hd' : Option Nat),
      chainSeg m pv hd xs pv' hd' → xs ≠ [] → ∃ p, pv' = some p ∧ p ∈ xs := by
  intro xs
  induction xs with
  | nil => intro _ _ _ _ _ h; exact absurd rfl h
  | cons a xs ih =>
    intro pv hd pv' hd' hseg _
    obtain ⟨hhd, h, hma, hprev, hrest⟩ := hseg
    by_cases hxs : xs = []
    · subst hxs
      obtain ⟨hpv, _⟩ := hrest
      exact ⟨a, hpv, List.mem_cons_self a []⟩
    · obtain ⟨p, hp, hpm⟩ := ih (some a) h.next pv' hd' hrest hxs
      exact ⟨p, hp, List.mem_cons_of_mem a hpm⟩

theorem chain_split_mid (m : Mem) (b : Nat) (l1 l2 : List Nat) (pv hd : Option Nat)
    (hch : chain m pv hd (l1 ++ b :: l2)) :
    ∃ pv1 hb, chainSeg m pv hd l1 pv1 (some b) ∧ m b = some hb ∧ hb.prev = pv1 ∧
      chain m (some b) hb.next l2 := by
  obtain ⟨pvE, hseg⟩ := chainSeg_of_chain m _ pv hd hch
  obtain ⟨pv1, hd1, h1, h2⟩ := (chainSeg_append_iff m l1 (b :: l2) pv hd pvE none).mp hseg
  obtain ⟨hhd1, hb, hmb, hbprev, hrest⟩ := h2
  subst hhd1
  exact ⟨pv1, hb, h1, hmb, hbprev, chain_of_chainSeg m l2 (some b) hb.next pvE hrest⟩

/-- Splicing a header `b` out of a doubly-linked list: if `m'` rewrites
`b`'s predecessor's `next` to `b.next` and `b`'s successor's `prev` to
`b.prev`, leaving the other listed headers alone, the remaining addresses
again form a well-formed chain (with the head pointer advanced to `b.next`
when `b` was the first element). -/
theorem chain_unlink (m m' : Mem) (b : Nat) (hb : Header) (l2 : List Nat)
    (hmb : m b = some hb)
    (hprev : ∀ p, hb.prev = some p → m' p = some { getH m p with next := hb.next })
    (hnext : ∀ nx, hb.next = some nx → m' nx = some { getH m nx with prev := hb.prev })
    (hPl2 : ∀ p, hb.prev = some p → p ∉ l2) :
    ∀ (l1 : List Nat) (pv hd : Option Nat),
      chain m pv hd (l1 ++ b :: l2) →
      (l1 ++ b :: l2).Nodup →
      (∀ y ∈ l1 ++ l2, some y ≠ hb.prev → some y ≠ hb.next → m' y = m y) →
      chain m' pv (if l1.isEmpty then hb.next else hd) (l1 ++ l2) := by
  intro l1
  induction l1 with
  | nil =>
    intro pv hd hch hnd hag
    show chain m' pv hb.next l2
    obtain ⟨hhd, h, hma, hprevb, hrest⟩ := hch
    rw [hmb] at hma
    injection hma with hEq
    subst hEq
    cases l2 with
    | nil => exact hrest
    | cons nx l2' =>
      obtain ⟨hhnx, hnxh, hmnx, hnxprev, hrest'⟩ := hrest
      have hgetH : getH m nx = hnxh := by simp [getH, hmnx]
      have hpatched := hnext nx hhnx
      rw [hgetH] at hpatched
      refine ⟨hhnx, { hnxh with prev := hb.prev }, hpatched, hprevb, ?_⟩
      show chain m' (some nx) hnxh.next l2'
      refine chain_congr m m' l2' (some nx) hnxh.next ?_ hrest'
      intro y hy
      refine hag y (List.mem_cons_of_mem nx hy) ?_ ?_
      · intro hcon
        exact hPl2 y hcon.symm (List.mem_cons_of_mem nx hy)
      · rw [hhnx]
        intro hcon
        injection hcon with hcon'
        subst hcon'
        exact (List.nodup_cons.mp (List.nodup_cons.mp hnd).2).1 hy
  | cons a l1' ih =>
    intro pv hd hch hnd hag
    have hch' : chain m pv hd (a :: (l1' ++ b :: l2)) := hch
    obtain ⟨hhd, h0, hma, h0prev, hrest⟩ := hch'
    have hnd' : (a :: (l1' ++ b :: l2)).Nodup := hnd
    have hndTail := (List.nodup_cons.mp hnd').2
    have haNotIn := (List.nodup_cons.mp hnd').1
    have hag' : ∀ y ∈ l1' ++ l2, some y ≠ hb.prev → some y ≠ hb.next → m' y = m y :=
      fun y hy => hag y (List.mem_cons_of_mem a hy)
    show chain m' pv hd (a :: (l1' ++ l2))
    by_cases hl1' : l1' = []
    · subst hl1'
      have hrest0 : chain m (some a) h0.next ([] ++ b :: l2) := hrest
      obtain ⟨h0next, hbh, hmbh, hbprev, hrest'⟩ := hrest
      rw [hmb] at hmbh
      injection hmbh with hEq
      subst hEq
      have hgetH : getH m a = h0 := by simp [getH, hma]
      have hpatched := hprev a hbprev
      rw [hgetH] at hpatched
      refine ⟨hhd, { h0 with next := hb.next }, hpatched, h0prev, ?_⟩
      show chain m' (some a) hb.next ([] ++ l2)
      exact ih (some a) h0.next hrest0 hndTail hag'
    · obtain ⟨pv1, hb2, hseg, hmb2, hb2prev, hrestl2⟩ :=
        chain_split_mid m b l1' l2 (some a) h0.next hrest
      rw [hmb] at hmb2
      injection hmb2 with hEq
      subst hEq
      have hma' : m' a = m a := by
        refine hag a (List.mem_cons_self a _) ?_ ?_
        · obtain ⟨p, hp, hpm⟩ := chainSeg_end_mem m l1' (some a) h0.next pv1 (some b) hseg hl1'
          rw [hb2prev, hp]
          intro hcon
          injection hcon with hcon'
          subst hcon'
          exact haNotIn (List.mem_append_left _ hpm)
        · cases hl2c : l2 with
          | nil =>
            rw [hl2c] at hrestl2
            have hnone : hb.next = none := hrestl2
            rw [hnone]
            simp
          | cons nx l2' =>
            rw [hl2c] at hrestl2
            rw [hrestl2.1]
            intro hcon
            injection hcon with hcon'
            subst hcon'
            refine haNotIn (List.mem_append_right _ ?_)
            rw [hl2c]
            exact List.mem_cons_of_mem b (List.mem_cons_self a l2')
      refine ⟨hhd, h0, hma' ▸ hma, h0prev, ?_⟩
      have hih := ih (some a) h0.next hrest hndTail hag'
      have hemp : l1'.isEmpty = false := by
        cases l1' with
        | nil => exact absurd rfl hl1'
        | cons c l1'' => rfl
      rw [hemp] at hih
      exact hih

/-- Pushing a header `b` onto the head of a doubly-linked list: if `m'`
holds at `b` a header whose `next` is the old head and whose `prev` is
null, and rewrites the old head's `prev` to `b`, the result is again a
well-formed chain. -/
theorem chain_push (m m' : Mem) (b : Nat) (hbNew : Header) (as : List Nat) (hd0 : Option Nat)
    (hch : chain m none hd0 as)
    (hnd : as.Nodup)
    (hmb' : m' b = some hbNew)
    (hNext : hbNew.next = hd0)
    (hPrev : hbNew.prev = none)
    (hpatch : ∀ nx, hd0 = some nx → m' nx = some { getH m nx with prev := some b })
    (hag : ∀ y ∈ as, some y ≠ hd0 → m' y = m y) :
    chain m' none (some b) (b :: as) := by
  refine ⟨rfl, hbNew, hmb', hPrev, ?_⟩
  rw [hNext]
  cases as with
  | nil => exact hch
  | cons nx as' =>
    obtain ⟨hhd0, hnxh, hmnx, hnxprev, hrest⟩ := hch
    refine ⟨hhd0, { getH m nx with prev := some b }, hpatch nx hhd0, rfl, ?_⟩
    have hgetH : getH m nx = hnxh := by simp [getH, hmnx]
    rw [hgetH]
    refine chain_congr m m' as' (some nx) hnxh.next ?_ hrest
    intro y hy
    refine hag y (List.mem_cons_of_mem nx hy) ?_
    rw [hhd0]
    intro hcon
    injection hcon with hcon'
    subst hcon'
    exact (List.nodup_cons.mp hnd).1 hy

/- ===================================================================
   The best-fit search: findBest computes loopSpec, and loopSpec picks
   the first-encountered smallest qualifying candidate.
   =================================================================== -/

/- ===================================================================
   The best-fit search: findBest computes loopSpec, and loopSpec picks
   the first-encountered smallest qualifying candidate.
   =================================================================== -/

theorem qualifies_none_iff (size cs : Nat) :
    qualifies size cs none ↔ size ≤ cs := by
  simp [qualifies]

theorem qualifies_some_iff (size cs b bs : Nat) :
    qualifies size cs (some (b, bs)) ↔ size ≤ cs ∧ cs < bs := by
  simp [qualifies]

theorem loopSpec_nil (size : Nat) (acc : Option (Nat × Nat)) :
    loopSpec size acc [] = acc := rfl

theorem loopSpec_cons (size : Nat) (acc : Option (Nat × Nat)) (a sa : Nat)
    (t : List (Nat × Nat)) :
    loopSpec size acc ((a, sa) :: t) =
      (let best' := if qualifies size sa acc then some (a, sa) else acc
       if best'.map Prod.snd = some size then best' else loopSpec size best' t) := by
  rw [loopSpec]

theorem findBest_eq_loopSpec (m : Mem) (size : Nat) :
    ∀ (fs : List Nat) (fuel : Nat) (pv hd : Option Nat) (acc : Option (Nat × Nat)),
      chain m pv hd fs →
      (∀ a ∈ fs, getAllocated m a = false) →
      fs.length ≤ fuel →
      findBest m size fuel hd acc = some (loopSpec size acc (sized m fs)) := by
  intro fs
  induction fs with
  | nil =>
    intro fuel pv hd acc hch _ _
    have hhd : hd = none := hch
    subst hhd
    cases fuel <;> rfl
  | cons a fs' ih =>
    intro fuel pv hd acc hch hflag hlen
    obtain ⟨hhd, h, hma, hprev, hrest⟩ := hch
    subst hhd
    cases fuel with
    | zero => simp at hlen
    | succ f =>
      have halloc : h.allocated = false := by
        have := hflag a (List.mem_cons_self a fs')
        simpa [getAllocated, getH, hma] using this
      have hsz : getSize m a = h.size := by simp [getSize, getH, hma]
      have hflag' : ∀ x ∈ fs', getAllocated m x = false :=
        fun x hx => hflag x (List.mem_cons_of_mem a hx)
      have hlen' : fs'.length ≤ f := by simpa using hlen
      have hconsr : sized m (a :: fs') = (a, h.size) :: sized m fs' := by
        simp [sized, hsz]
      rw [hconsr, loopSpec_cons]
      simp only [findBest, hma, halloc, if_false, Bool.false_eq_true]
      by_cases hq : qualifies size h.size acc
      · rw [if_pos hq]
        by_cases hex : (some (a, h.size) : Option (Nat × Nat)).map Prod.snd = some size
        · simp only [if_pos hex]
        · simp only [if_neg hex]
          exact ih f (some a) h.next (some (a, h.size)) hrest hflag' hlen'
      · rw [if_neg hq]
        by_cases hex : acc.map Prod.snd = some size
        · simp only [if_pos hex]
        · simp only [if_neg hex]
          exact ih f (some a) h.next acc hrest hflag' hlen'

theorem loopSpec_char (size : Nat) :
    ∀ (t : List (Nat × Nat)) (acc : Option (Nat × Nat)),
      (∀ a0 s0, acc = some (a0, s0) → size < s0) →
      (loopSpec size acc t = none → acc = none ∧ ∀ p ∈ t, p.2 < size) ∧
      (∀ b bs, loopSpec size acc t = some (b, bs) →
        size ≤ bs ∧
        ((acc = some (b, bs) ∧ ∀ p ∈ t, size ≤ p.2 → bs ≤ p.2) ∨
         (∃ t1 t2, t = t1 ++ (b, bs) :: t2 ∧
            (∀ a0 s0, acc = some (a0, s0) → bs < s0) ∧
            (∀ p ∈ t1, size ≤ p.2 → bs < p.2) ∧
            (∀ p ∈ t, size ≤ p.2 → bs ≤ p.2)))) := by
  intro t
  induction t with
  | nil =>
    intro acc hacc
    constructor
    · intro hr
      have hn : acc = none := hr
      exact ⟨hn, by intro p hp; cases hp⟩
    · intro b bs hr
      have hacc' : acc = some (b, bs) := hr
      exact ⟨le_of_lt (hacc b bs hacc'), Or.inl ⟨hacc', by intro p hp; cases hp⟩⟩
  | cons q t' ih =>
    obtain ⟨a, sa⟩ := q
    intro acc hacc
    rcases acc with _ | ⟨a0, s0⟩
    · -- acc = none
      by_cases hsa : size ≤ sa
      · have hq : qualifies size sa none := (qualifies_none_iff size sa).mpr hsa
        by_cases hex : sa = size
        · have hexc : (some (a, sa) : Option (Nat × Nat)).map Prod.snd = some size := by
            simp [hex]
          have hred : loopSpec size none ((a, sa) :: t') = some (a, sa) := by
            rw [loopSpec_cons]
            simp only [if_pos hq, if_pos hexc]
          constructor
          · intro hr; rw [hred] at hr; cases hr
          · intro b bs hr
            rw [hred] at hr
            injection hr with hr'
            injection hr' with h1 h2
            subst h1; subst h2
            refine ⟨le_of_eq hex.symm, Or.inr ⟨[], t', by simp, ?_, ?_, ?_⟩⟩
            · intro _ _ hc; cases hc
            · intro p hp; cases hp
            · intro p hp hps
              rcases List.mem_cons.mp hp with heq | hp'
              · rw [heq]
              · rw [hex]; exact hps
        · have hexc : ¬ ((some (a, sa) : Option (Nat × Nat)).map Prod.snd = some size) := by
            simpa using hex
          have hred : loopSpec size none ((a, sa) :: t') = loopSpec size (some (a, sa)) t' := by
            rw [loopSpec_cons]
            simp only [if_pos hq, if_neg hexc]
          have hacc' : ∀ a1 s1, (some (a, sa) : Option (Nat × Nat)) = some (a1, s1) → size < s1 := by
            intro a1 s1 hc
            injection hc with hc'
            injection hc' with h1 h2
            subst h2
            exact lt_of_le_of_ne hsa (fun hcc => hex hcc.symm)
          obtain ⟨ihn, ihs⟩ := ih (some (a, sa)) hacc'
          constructor
          · intro hr
            rw [hred] at hr
            obtain ⟨hc, _⟩ := ihn hr
            cases hc
          · intro b bs hr
            rw [hred] at hr
            obtain ⟨hbs, hcase⟩ := ihs b bs hr
            refine ⟨hbs, Or.inr ?_⟩
            rcases hcase with ⟨hacc2, hmin⟩ | ⟨t1, t2, hsplit, haccCl, ht1, hmin⟩
            · injection hacc2 with hc'
              injection hc' with h1 h2
              subst h1; subst h2
              refine ⟨[], t', by simp, ?_, ?_, ?_⟩
              · intro _ _ hc; cases hc
              · intro p hp; cases hp
              · intro p hp hps
                rcases List.mem_cons.mp hp with heq | hp'
                · rw [heq]
                · exact hmin p hp' hps
            · have hlt : bs < sa := haccCl a sa rfl
              refine ⟨(a, sa) :: t1, t2, by simp [hsplit], ?_, ?_, ?_⟩
              · intro _ _ hc; cases hc
              · intro p hp hps
                rcases List.mem_cons.mp hp with heq | hp'
                · rw [heq]; exact hlt
                · exact ht1 p hp' hps
              · intro p hp hps
                rcases List.mem_cons.mp hp with heq | hp'
                · rw [heq]; exact le_of_lt hlt
                · exact hmin p hp' hps
      · have hq : ¬ qualifies size sa none := by
          rw [qualifies_none_iff]; exact hsa
        have hexc : ¬ ((none : Option (Nat × Nat)).map Prod.snd = some size) := by
          simp
        have hred : loopSpec size none ((a, sa) :: t') = loopSpec size none t' := by
          rw [loopSpec_cons]
          simp only [if_neg hq, if_neg hexc]
        have hacc0 : ∀ a1 s1, (none : Option (Nat × Nat)) = some (a1, s1) → size < s1 := by
          intro _ _ hc; cases hc
        obtain ⟨ihn, ihs⟩ := ih none hacc0
        constructor
        · intro hr
          rw [hred] at hr
          obtain ⟨_, hsmall⟩ := ihn hr
          refine ⟨rfl, ?_⟩
          intro p hp
          rcases List.mem_cons.mp hp with heq | hp'
          · rw [heq]; exact Nat.lt_of_not_le hsa
          · exact hsmall p hp'
        · intro b bs hr
          rw [hred] at hr
          obtain ⟨hbs, hcase⟩ := ihs b bs hr
          refine ⟨hbs, Or.inr ?_⟩
          rcases hcase with ⟨hacc2, _⟩ | ⟨t1, t2, hsplit, _, ht1, hmin⟩
          · cases hacc2
          · refine ⟨(a, sa) :: t1, t2, by simp [hsplit], ?_, ?_, ?_⟩
            · intro _ _ hc; cases hc
            · intro p hp hps
              rcases List.mem_cons.mp hp with heq | hp'
              · rw [heq] at hps; exact absurd hps hsa
              · exact ht1 p hp' hps
            · intro p hp hps
              rcases List.mem_cons.mp hp with heq | hp'
              · rw [heq] at hps; exact absurd hps hsa
              · exact hmin p hp' hps
    · -- acc = some (a0, s0), with size < s0
      have hs0 : size < s0 := hacc a0 s0 rfl
      by_cases hqual : size ≤ sa ∧ sa < s0
      · have hq : qualifies size sa (some (a0, s0)) :=
          (qualifies_some_iff size sa a0 s0).mpr hqual
        by_cases hex : sa = size
        · have hexc : (some (a, sa) : Option (Nat × Nat)).map Prod.snd = some size := by
            simp [hex]
          have hred : loopSpec size (some (a0, s0)) ((a, sa) :: t') = some (a, sa) := by
            rw [loopSpec_cons]
            simp only [if_pos hq, if_pos hexc]
          constructor
          · intro hr; rw [hred] at hr; cases hr
          · intro b bs hr
            rw [hred] at hr
            injection hr with hr'
            injection hr' with h1 h2
            subst h1; subst h2
            refine ⟨le_of_eq hex.symm, Or.inr ⟨[], t', by simp, ?_, ?_, ?_⟩⟩
            · intro a1 s1 hc
              injection hc with hc'
              injection hc' with h1 h2
              subst h2
              rw [hex]; exact hs0
            · intro p hp; cases hp
            · intro p hp hps
              rcases List.mem_cons.mp hp with heq | hp'
              · rw [heq]
              · rw [hex]; exact hps
        · have hexc : ¬ ((some (a, sa) : Option (Nat × Nat)).map Prod.snd = some size) := by
            simpa using hex
          have hred : loopSpec size (some (a0, s0)) ((a, sa) :: t') =
              loopSpec size (some (a, sa)) t' := by
            rw [loopSpec_cons]
            simp only [if_pos hq, if_neg hexc]
          have hacc' : ∀ a1 s1, (some (a, sa) : Option (Nat × Nat)) = some (a1, s1) → size < s1 := by
            intro a1 s1 hc
            injection hc with hc'
            injection hc' with h1 h2
            subst h2
            exact lt_of_le_of_ne hqual.1 (fun hcc => hex hcc.symm)
          obtain ⟨ihn, ihs⟩ := ih (some (a, sa)) hacc'
          constructor
          · intro hr
            rw [hred] at hr
            obtain ⟨hc, _⟩ := ihn hr
            cases hc
          · intro b bs hr
            rw [hred] at hr
            obtain ⟨hbs, hcase⟩ := ihs b bs hr
            refine ⟨hbs, Or.inr ?_⟩
            rcases hcase with ⟨hacc2, hmin⟩ | ⟨t1, t2, hsplit, haccCl, ht1, hmin⟩
            · injection hacc2 with hc'
              injection hc' with h1 h2
              subst h1; subst h2
              refine ⟨[], t', by simp, ?_, ?_, ?_⟩
              · intro a1 s1 hc
                injection hc with hc'
                injection hc' with h1 h2
                subst h2
                exact hqual.2
              · intro p hp; cases hp
              · intro p hp hps
                rcases List.mem_cons.mp hp with heq | hp'
                · rw [heq]
                · exact hmin p hp' hps
            · have hlt : bs < sa := haccCl a sa rfl
              refine ⟨(a, sa) :: t1, t2, by simp [hsplit], ?_, ?_, ?_⟩
              · intro a1 s1 hc
                injection hc with hc'
                injection hc' with h1 h2
                subst h2
                exact lt_trans hlt hqual.2
              · intro p hp hps
                rcases List.mem_cons.mp hp with heq | hp'
                · rw [heq]; exact hlt
                · exact ht1 p hp' hps
              · intro p hp hps
                rcases List.mem_cons.mp hp with heq | hp'
                · rw [heq]; exact le_of_lt hlt
                · exact hmin p hp' hps
      · have hq : ¬ qualifies size sa (some (a0, s0)) := by
          rw [qualifies_some_iff]; exact hqual
        have hexc : ¬ ((some (a0, s0) : Option (Nat × Nat)).map Prod.snd = some size) := by
          simpa using Nat.ne_of_gt hs0
        have hred : loopSpec size (some (a0, s0)) ((a, sa) :: t') =
            loopSpec size (some (a0, s0)) t' := by
          rw [loopSpec_cons]
          simp only [if_neg hq, if_neg hexc]
        have hge : size ≤ sa → s0 ≤ sa := by
          intro hps
          by_contra hcon
          exact hqual ⟨hps, Nat.lt_of_not_le hcon⟩
        obtain ⟨ihn, ihs⟩ := ih (some (a0, s0)) hacc
        constructor
        · intro hr
          rw [hred] at hr
          obtain ⟨hc, _⟩ := ihn hr
          cases hc
        · intro b bs hr
          rw [hred] at hr
          obtain ⟨hbs, hcase⟩ := ihs b bs hr
          refine ⟨hbs, ?_⟩
          rcases hcase with ⟨hacc2, hmin⟩ | ⟨t1, t2, hsplit, haccCl, ht1, hmin⟩
          · refine Or.inl ⟨hacc2, ?_⟩
            intro p hp hps
            rcases List.mem_cons.mp hp with heq | hp'
            · injection hacc2 with hc'
              injection hc' with h1 h2
              subst h2
              rw [heq]
              exact hge (by rw [heq] at hps; exact hps)
            · exact hmin p hp' hps
          · refine Or.inr ⟨(a, sa) :: t1, t2, by simp [hsplit], haccCl, ?_, ?_⟩
            · intro p hp hps
              rcases List.mem_cons.mp hp with heq | hp'
              · rw [heq]
                exact lt_of_lt_of_le (haccCl a0 s0 rfl) (hge (by rw [heq] at hps; exact hps))
              · exact ht1 p hp' hps
            · intro p hp hps
              rcases List.mem_cons.mp hp with heq | hp'
              · rw [heq]
                exact le_of_lt (lt_of_lt_of_le (haccCl a0 s0 rfl) (hge (by rw [heq] at hps; exact hps)))
              · exact hmin p hp' hps


theorem init_noop (base : Nat) (s : AllocState) (h : s.start_addr ≠ 0) :
    init base s = s := by
  simp [init, h]

theorem getH_writeH_same (m : Mem) (a : Nat) (h : Header) :
    getH (writeH m a h) a = h := by
  simp [getH, writeH]

theorem getH_writeH_other (m : Mem) (a : Nat) (h : Header) (x : Nat) (hx : x ≠ a) :
    getH (writeH m a h) x = getH m x := by
  simp [getH, writeH, hx, Ne.symm hx]

theorem malloc_hit_effect (base size b bs : Nat) (s : AllocState) (hb : Header)
    (hinit : s.start_addr ≠ 0)
    (hsz : size ≠ 0)
    (hfb : findBest s.mem size (s.end_addr + 1) s.free_list_head none = some (some (b, bs)))
    (hmb : s.mem b = some hb)
    (hpb : hb.prev ≠ some b)
    (hnb : hb.next ≠ some b)
    (hpn : ∀ p, hb.prev = some p → hb.next ≠ some p)
    (hab : s.alloc_list_head ≠ some b)
    (hap : ∀ p, hb.prev = some p → s.alloc_list_head ≠ some p)
    (han : ∀ nx, hb.next = some nx → s.alloc_list_head ≠ some nx) :
    malloc base s size = some (some (HEADER_TO_BLOCK b),
      { s with free_list_head := if hb.prev = none then hb.next else s.free_list_head,
               alloc_list_head := some b,
               mem := migrateMem s.mem b hb s.alloc_list_head true }) := by
  have hini : init base s = s := init_noop base s hinit
  have hgp : getPrev s.mem b = hb.prev := by simp [getPrev, getH, hmb]
  have hgn : getNext s.mem b = hb.next := by simp [getNext, getH, hmb]
  have hgb : getH s.mem b = hb := by simp [getH, hmb]
  rcases hpcase : hb.prev with _ | p
  · -- best->prev == NULL
    rw [if_pos rfl]
    rcases hncase : hb.next with _ | nx
    · rcases hacase : s.alloc_list_head with _ | ah0
      · -- (none, none, none)
        simp only [malloc, hini, if_neg hsz, hfb, hgb, hpcase, hncase, hacase,
                  setNext, setPrev, setAllocated, getNext, getPrev, getH_writeH_same]
        congr 1
        congr 1
        congr 1
        funext x
        by_cases hx : x = b
        · subst hx
          simp [writeH, migrateMem, getH, hgb, hmb, hpcase, hncase, hacase]
        · simp [writeH, migrateMem, getH, hgb, hmb, hpcase, hncase, hacase, hx, Ne.symm hx]
      · -- (none, none, some ah0)
        have hab2 : ah0 ≠ b := by
          intro h; apply hab; rw [hacase, h]
        have hba : b ≠ ah0 := Ne.symm hab2
        simp only [malloc, hini, if_neg hsz, hfb, hgb, hpcase, hncase, hacase,
                  setNext, setPrev, setAllocated, getNext, getPrev, getH_writeH_same, getH_writeH_other _ _ _ _ hab2, getH_writeH_other _ _ _ _ hba]
        congr 1
        congr 1
        congr 1
        funext x
        by_cases hx : x = b
        · subst hx
          simp [writeH, migrateMem, getH, hgb, hmb, hpcase, hncase, hacase, hab2, hba]
        · by_cases hx2 : x = ah0
          · subst hx2
            simp [writeH, migrateMem, getH, hgb, hmb, hpcase, hncase, hacase, hab2, hba, hx, Ne.symm hx]
          · simp [writeH, migrateMem, getH, hgb, hmb, hpcase, hncase, hacase, hab2, hba, hx, Ne.symm hx, hx2, Ne.symm hx2]
    · -- next = some nx
      have hnb2 : nx ≠ b := by
        intro h; apply hnb; rw [hncase, h]
      have hbn : b ≠ nx := Ne.symm hnb2
      rcases hacase : s.alloc_list_head with _ | ah0
      · -- (none, some nx, none)
        simp only [malloc, hini, if_neg hsz, hfb, hgb, hpcase, hncase, hacase,
                  setNext, setPrev, setAllocated, getNext, getPrev, getH_writeH_same, getH_writeH_other _ _ _ _ hbn, getH_writeH_other _ _ _ _ hnb2]
        congr 1
        congr 1
        congr 1
        funext x
        by_cases hx : x = b
        · subst hx
          simp [writeH, migrateMem, getH, hgb, hmb, hpcase, hncase, hacase, hbn, hnb2]
        · by_cases hx2 : x = nx
          · subst hx2
            simp [writeH, migrateMem, getH, hgb, hmb, hpcase, hncase, hacase, hbn, hnb2, hx, Ne.symm hx]
          · simp [writeH, migrateMem, getH, hgb, hmb, hpcase, hncase, hacase, hbn, hnb2, hx, Ne.symm hx, hx2, Ne.symm hx2]
      · -- (none, some nx, some ah0)
        have hab2 : ah0 ≠ b := by
          intro h; apply hab; rw [hacase, h]
        have hba : b ≠ ah0 := Ne.symm hab2
        have hanx : ah0 ≠ nx := by
          intro h; apply han nx hncase; rw [hacase, h]
        have hnxa : nx ≠ ah0 := Ne.symm hanx
        simp only [malloc, hini, if_neg hsz, hfb, hgb, hpcase, hncase, hacase,
                  setNext, setPrev, setAllocated, getNext, getPrev, getH_writeH_same, getH_writeH_other _ _ _ _ hab2, getH_writeH_other _ _ _ _ hba, getH_writeH_other _ _ _ _ hanx, getH_writeH_other _ _ _ _ hnxa, getH_writeH_other _ _ _ _ hbn, getH_writeH_other _ _ _ _ hnb2]
        congr 1
        congr 1
        congr 1
        funext x
        by_cases hx : x = b
        · subst hx
          simp [writeH, migrateMem, getH, hgb, hmb, hpcase, hncase, hacase, hbn, hnb2, hab2, hba, hanx, hnxa]
        · by_cases hx2 : x = nx
          · subst hx2
            simp [writeH, migrateMem, getH, hgb, hmb, hpcase, hncase, hacase, hbn, hnb2, hab2, hba, hanx, hnxa, hx, Ne.symm hx]
          · by_cases hx3 : x = ah0
            · subst hx3
              simp [writeH, migrateMem, getH, hgb, hmb, hpcase, hncase, hacase, hbn, hnb2, hab2, hba, hanx, hnxa, hx, Ne.symm hx, hx2, Ne.symm hx2]
            · simp [writeH, migrateMem, getH, hgb, hmb, hpcase, hncase, hacase, hbn, hnb2, hab2, hba, hanx, hnxa, hx, Ne.symm hx, hx2, Ne.symm hx2, hx3, Ne.symm hx3]
  · -- best->prev == some p
    rw [if_neg (by simp)]
    have hpb2 : p ≠ b := by
      intro h; apply hpb; rw [hpcase, h]
    have hbp : b ≠ p := Ne.symm hpb2
    rcases hncase : hb.next with _ | nx
    · rcases hacase : s.alloc_list_head with _ | ah0
      · -- (some p, none, none)
        simp only [malloc, hini, if_neg hsz, hfb, hgb, hpcase, hncase, hacase,
                  setNext, setPrev, setAllocated, getNext, getPrev, getH_writeH_same, getH_writeH_other _ _ _ _ hbp, getH_writeH_other _ _ _ _ hpb2]
        congr 1
        congr 1
        congr 1
        funext x
        by_cases hx : x = b
        · subst hx
          simp [writeH, migrateMem, getH, hgb, hmb, hpcase, hncase, hacase, hbp, hpb2]
        · by_cases hx2 : x = p
          · subst hx2
            simp [writeH, migrateMem, getH, hgb, hmb, hpcase, hncase, hacase, hbp, hpb2, hx, Ne.symm hx]
          · simp [writeH, migrateMem, getH, hgb, hmb, hpcase, hncase, hacase, hbp, hpb2, hx, Ne.symm hx, hx2, Ne.symm hx2]
      · -- (some p, none, some ah0)
        have hab2 : ah0 ≠ b := by
          intro h; apply hab; rw [hacase, h]
        have hba : b ≠ ah0 := Ne.symm hab2
        have hap2 : ah0 ≠ p := by
          intro h; apply hap p hpcase; rw [hacase, h]
        have hpa : p ≠ ah0 := Ne.symm hap2
        simp only [malloc, hini, if_neg hsz, hfb, hgb, hpcase, hncase, hacase,
                  setNext, setPrev, setAllocated, getNext, getPrev, getH_writeH_same, getH_writeH_other _ _ _ _ hab2, getH_writeH_other _ _ _ _ hba, getH_writeH_other _ _ _ _ hap2, getH_writeH_other _ _ _ _ hpa, getH_writeH_other _ _ _ _ hbp, getH_writeH_other _ _ _ _ hpb2]
        congr 1
        congr 1
        congr 1
        funext x
        by_cases hx : x = b
        · subst hx
          simp [writeH, migrateMem, getH, hgb, hmb, hpcase, hncase, hacase, hbp, hpb2, hab2, hba, hap2, hpa]
        · by_cases hx2 : x = p
          · subst hx2
            simp [writeH, migrateMem, getH, hgb, hmb, hpcase, hncase, hacase, hbp, hpb2, hab2, hba, hap2, hpa, hx, Ne.symm hx]
          · by_cases hx3 : x = ah0
            · subst hx3
              simp [writeH, migrateMem, getH, hgb, hmb, hpcase, hncase, hacase, hbp, hpb2, hab2, hba, hap2, hpa, hx, Ne.symm hx, hx2, Ne.symm hx2]
            · simp [writeH, migrateMem, getH, hgb, hmb, hpcase, hncase, hacase, hbp, hpb2, hab2, hba, hap2, hpa, hx, Ne.symm hx, hx2, Ne.symm hx2, hx3, Ne.symm hx3]
    · -- next = some nx
      have hnb2 : nx ≠ b := by
        intro h; apply hnb; rw [hncase, h]
      have hbn : b ≠ nx := Ne.symm hnb2
      have hnp : nx ≠ p := by
        intro h; apply hpn p hpcase; rw [hncase, h]
      have hpn2 : p ≠ nx := Ne.symm hnp
      rcases hacase : s.alloc_list_head with _ | ah0
      · -- (some p, some nx, none)
        simp only [malloc, hini, if_neg hsz, hfb, hgb, hpcase, hncase, hacase,
                  setNext, setPrev, setAllocated, getNext, getPrev, getH_writeH_same, getH_writeH_other _ _ _ _ hbp, getH_writeH_other _ _ _ _ hpb2, getH_writeH_other _ _ _ _ hbn, getH_writeH_other _ _ _ _ hnb2, getH_writeH_other _ _ _ _ hnp, getH_writeH_other _ _ _ _ hpn2]
        congr 1
        congr 1
        congr 1
        funext x
        by_cases hx : x = b
        · subst hx
          simp [writeH, migrateMem, getH, hgb, hmb, hpcase, hncase, hacase, hbp, hpb2, hbn, hnb2, hnp, hpn2]
        · by_cases hx2 : x = p
          · subst hx2
            simp [writeH, migrateMem, getH, hgb, hmb, hpcase, hncase, hacase, hbp, hpb2, hbn, hnb2, hnp, hpn2, hx, Ne.symm hx]
          · by_cases hx3 : x = nx
            · subst hx3
              simp [writeH, migrateMem, getH, hgb, hmb, hpcase, hncase, hacase, hbp, hpb2, hbn, hnb2, hnp, hpn2, hx, Ne.symm hx, hx2, Ne.symm hx2]
            · simp [writeH, migrateMem, getH, hgb, hmb, hpcase, hncase, hacase, hbp, hpb2, hbn, hnb2, hnp, hpn2, hx, Ne.symm hx, hx2, Ne.symm hx2, hx3, Ne.symm hx3]
      · -- (some p, some nx, some ah0)
        have hab2 : ah0 ≠ b := by
          intro h; apply hab; rw [hacase, h]
        have hba : b ≠ ah0 := Ne.symm hab2
        have hap2 : ah0 ≠ p := by
          intro h; apply hap p hpcase; rw [hacase, h]
        have hpa : p ≠ ah0 := Ne.symm hap2
        have hanx : ah0 ≠ nx := by
          intro h; apply han nx hncase; rw [hacase, h]
        have hnxa : nx ≠ ah0 := Ne.symm hanx
        simp only [malloc, hini, if_neg hsz, hfb, hgb, hpcase, hncase, hacase,
                  setNext, setPrev, setAllocated, getNext, getPrev, getH_writeH_same, getH_writeH_other _ _ _ _ hab2, getH_writeH_other _ _ _ _ hba, getH_writeH_other _ _ _ _ hap2, getH_writeH_other _ _ _ _ hpa, getH_writeH_other _ _ _ _ hanx, getH_writeH_other _ _ _ _ hnxa, getH_writeH_other _ _ _ _ hbp, getH_writeH_other _ _ _ _ hpb2, getH_writeH_other _ _ _ _ hbn, getH_writeH_other _ _ _ _ hnb2, getH_writeH_other _ _ _ _ hnp, getH_writeH_other _ _ _ _ hpn2]
        congr 1
        congr 1
        congr 1
        funext x
        by_cases hx : x = b
        · subst hx
          simp [writeH, migrateMem, getH, hgb, hmb, hpcase, hncase, hacase, hbp, hpb2, hbn, hnb2, hnp, hpn2, hab2, hba, hap2, hpa, hanx, hnxa]
        · by_cases hx2 : x = p
          · subst hx2
            simp [writeH, migrateMem, getH, hgb, hmb, hpcase, hncase, hacase, hbp, hpb2, hbn, hnb2, hnp, hpn2, hab2, hba, hap2, hpa, hanx, hnxa, hx, Ne.symm hx]
          · by_cases hx3 : x = nx
            · subst hx3
              simp [writeH, migrateMem, getH, hgb, hmb, hpcase, hncase, hacase, hbp, hpb2, hbn, hnb2, hnp, hpn2, hab2, hba, hap2, hpa, hanx, hnxa, hx, Ne.symm hx, hx2, Ne.symm hx2]
            · by_cases hx4 : x = ah0
              · subst hx4
                simp [writeH, migrateMem, getH, hgb, hmb, hpcase, hncase, hacase, hbp, hpb2, hbn, hnb2, hnp, hpn2, hab2, hba, hap2, hpa, hanx, hnxa, hx, Ne.symm hx, hx2, Ne.symm hx2, hx3, Ne.symm hx3]
              · simp [writeH, migrateMem, getH, hgb, hmb, hpcase, hncase, hacase, hbp, hpb2, hbn, hnb2, hnp, hpn2, hab2, hba, hap2, hpa, hanx, hnxa, hx, Ne.symm hx, hx2, Ne.symm hx2, hx3, Ne.symm hx3, hx4, Ne.symm hx4]

/-- The net effect of `free` on a valid allocated block: the header is
unlinked from the allocated list and pushed onto the head of the free
list, its `allocated` flag cleared and its size kept. -/
theorem free_effect (p b : Nat) (s : AllocState) (hb : Header)
    (hBp : BLOCK_TO_HEADER p = b)
    (hmb : s.mem b = some hb)
    (halloc : hb.allocated = true)
    (hpb : hb.prev ≠ some b)
    (hnb : hb.next ≠ some b)
    (hpn : ∀ q, hb.prev = some q → hb.next ≠ some q)
    (hfb2 : s.free_list_head ≠ some b)
    (hfp : ∀ q, hb.prev = some q → s.free_list_head ≠ some q)
    (hfn : ∀ nx, hb.next = some nx → s.free_list_head ≠ some nx) :
    free s (some p) = some
      { s with free_list_head := some b,
               alloc_list_head := if hb.prev = none then hb.next else s.alloc_list_head,
               mem := migrateMem s.mem b hb s.free_list_head false } := by
  have hgb : getH s.mem b = hb := by simp [getH, hmb]
  have hcond : (getAllocated s.mem b = false) = False := by
    simp [getAllocated, hgb, halloc]
  rcases hpcase : hb.prev with _ | p2
  · rw [if_pos rfl]
    rcases hncase : hb.next with _ | nx
    · rcases hfcase : s.free_list_head with _ | fh0
      · -- (none, none, none)
        simp only [free, hBp, hcond, if_false, hgb, hpcase, hncase, hfcase,
                  setNext, setPrev, setAllocated, getNext, getPrev, getH_writeH_same]
        congr 1
        congr 1
        funext x
        by_cases hx : x = b
        · subst hx
          simp [writeH, migrateMem, getH, hgb, hmb, hpcase, hncase, hfcase]
        · simp [writeH, migrateMem, getH, hgb, hmb, hpcase, hncase, hfcase, hx, Ne.symm hx]
      · -- (none, none, some fh0)
        have hab2 : fh0 ≠ b := by
          intro h; apply hfb2; rw [hfcase, h]
        have hba : b ≠ fh0 := Ne.symm hab2
        simp only [free, hBp, hcond, if_false, hgb, hpcase, hncase, hfcase,
                  setNext, setPrev, setAllocated, getNext, getPrev, getH_writeH_same, getH_writeH_other _ _ _ _ hab2, getH_writeH_other _ _ _ _ hba]
        congr 1
        congr 1
        funext x
        by_cases hx : x = b
        · subst hx
          simp [writeH, migrateMem, getH, hgb, hmb, hpcase, hncase, hfcase, hab2, hba]
        · by_cases hx2 : x = fh0
          · subst hx2
            simp [writeH, migrateMem, getH, hgb, hmb, hpcase, hncase, hfcase, hab2, hba, hx, Ne.symm hx]
          · simp [writeH, migrateMem, getH, hgb, hmb, hpcase, hncase, hfcase, hab2, hba, hx, Ne.symm hx, hx2, Ne.symm hx2]
    · -- next = some nx
      have hnb2 : nx ≠ b := by
        intro h; apply hnb; rw [hncase, h]
      have hbn : b ≠ nx := Ne.symm hnb2
      rcases hfcase : s.free_list_head with _ | fh0
      · -- (none, some nx, none)
        simp only [free, hBp, hcond, if_false, hgb, hpcase, hncase, hfcase,
                  setNext, setPrev, setAllocated, getNext, getPrev, getH_writeH_same, getH_writeH_other _ _ _ _ hbn, getH_writeH_other _ _ _ _ hnb2]
        congr 1
        congr 1
        funext x
        by_cases hx : x = b
        · subst hx
          simp [writeH, migrateMem, getH, hgb, hmb, hpcase, hncase, hfcase, hbn, hnb2]
        · by_cases hx2 : x = nx
          · subst hx2
            simp [writeH, migrateMem, getH, hgb, hmb, hpcase, hncase, hfcase, hbn, hnb2, hx, Ne.symm hx]
          · simp [writeH, migrateMem, getH, hgb, hmb, hpcase, hncase, hfcase, hbn, hnb2, hx, Ne.symm hx, hx2, Ne.symm hx2]
      · -- (none, some nx, some fh0)
        have hab2 : fh0 ≠ b := by
          intro h; apply hfb2; rw [hfcase, h]
        have hba : b ≠ fh0 := Ne.symm hab2
        have hanx : fh0 ≠ nx := by
          intro h; apply hfn nx hncase; rw [hfcase, h]
        have hnxa : nx ≠ fh0 := Ne.symm hanx
        simp only [free, hBp, hcond, if_false, hgb, hpcase, hncase, hfcase,
                  setNext, setPrev, setAllocated, getNext, getPrev, getH_writeH_same, getH_writeH_other _ _ _ _ hab2, getH_writeH_other _ _ _ _ hba, getH_writeH_other _ _ _ _ hanx, getH_writeH_other _ _ _ _ hnxa, getH_writeH_other _ _ _ _ hbn, getH_writeH_other _ _ _ _ hnb2]
        congr 1
        congr 1
        funext x
        by_cases hx : x = b
        · subst hx
          simp [writeH, migrateMem, getH, hgb, hmb, hpcase, hncase, hfcase, hbn, hnb2, hab2, hba, hanx, hnxa]
        · by_cases hx2 : x = nx
          · subst hx2
            simp [writeH, migrateMem, getH, hgb, hmb, hpcase, hncase, hfcase, hbn, hnb2, hab2, hba, hanx, hnxa, hx, Ne.symm hx]
          · by_cases hx3 : x = fh0
            · subst hx3
              simp [writeH, migrateMem, getH, hgb, hmb, hpcase, hncase, hfcase, hbn, hnb2, hab2, hba, hanx, hnxa, hx, Ne.symm hx, hx2, Ne.symm hx2]
            · simp [writeH, migrateMem, getH, hgb, hmb, hpcase, hncase, hfcase, hbn, hnb2, hab2, hba, hanx, hnxa, hx, Ne.symm hx, hx2, Ne.symm hx2, hx3, Ne.symm hx3]
  · -- prev == some p2
    rw [if_neg (by simp)]
    have hpb2 : p2 ≠ b := by
      intro h; apply hpb; rw [hpcase, h]
    have hbp : b ≠ p2 := Ne.symm hpb2
    rcases hncase : hb.next with _ | nx
    · rcases hfcase : s.free_list_head with _ | fh0
      · -- (some p2, none, none)
        simp only [free, hBp, hcond, if_false, hgb, hpcase, hncase, hfcase,
                  setNext, setPrev, setAllocated, getNext, getPrev, getH_writeH_same, getH_writeH_other _ _ _ _ hbp, getH_writeH_other _ _ _ _ hpb2]
        congr 1
        congr 1
        funext x
        by_cases hx : x = b
        · subst hx
          simp [writeH, migrateMem, getH, hgb, hmb, hpcase, hncase, hfcase, hbp, hpb2]
        · by_cases hx2 : x = p2
          · subst hx2
            simp [writeH, migrateMem, getH, hgb, hmb, hpcase, hncase, hfcase, hbp, hpb2, hx, Ne.symm hx]
          · simp [writeH, migrateMem, getH, hgb, hmb, hpcase, hncase, hfcase, hbp, hpb2, hx, Ne.symm hx, hx2, Ne.symm hx2]
      · -- (some p2, none, some fh0)
        have hab2 : fh0 ≠ b := by
          intro h; apply hfb2; rw [hfcase, h]
        have hba : b ≠ fh0 := Ne.symm hab2
        have hap2 : fh0 ≠ p2 := by
          intro h; apply hfp p2 hpcase; rw [hfcase, h]
        have hpa : p2 ≠ fh0 := Ne.symm hap2
        simp only [free, hBp, hcond, if_false, hgb, hpcase, hncase, hfcase,
                  setNext, setPrev, setAllocated, getNext, getPrev, getH_writeH_same, getH_writeH_other _ _ _ _ hab2, getH_writeH_other _ _ _ _ hba, getH_writeH_other _ _ _ _ hap2, getH_writeH_other _ _ _ _ hpa, getH_writeH_other _ _ _ _ hbp, getH_writeH_other _ _ _ _ hpb2]
        congr 1
        congr 1
        funext x
        by_cases hx : x = b
        · subst hx
          simp [writeH, migrateMem, getH, hgb, hmb, hpcase, hncase, hfcase, hbp, hpb2, hab2, hba, hap2, hpa]
        · by_cases hx2 : x = p2
          · subst hx2
            simp [writeH, migrateMem, getH, hgb, hmb, hpcase, hncase, hfcase, hbp, hpb2, hab2, hba, hap2, hpa, hx, Ne.symm hx]
          · by_cases hx3 : x = fh0
            · subst hx3
              simp [writeH, migrateMem, getH, hgb, hmb, hpcase, hncase, hfcase, hbp, hpb2, hab2, hba, hap2, hpa, hx, Ne.symm hx, hx2, Ne.symm hx2]
            · simp [writeH, migrateMem, getH, hgb, hmb, hpcase, hncase, hfcase, hbp, hpb2, hab2, hba, hap2, hpa, hx, Ne.symm hx, hx2, Ne.symm hx2, hx3, Ne.symm hx3]
    · -- next = some nx
      have hnb2 : nx ≠ b := by
        intro h; apply hnb; rw [hncase, h]
      have hbn : b ≠ nx := Ne.symm hnb2
      have hnp : nx ≠ p2 := by
        intro h; apply hpn p2 hpcase; rw [hncase, h]
      have hpn2 : p2 ≠ nx := Ne.symm hnp
      rcases hfcase : s.free_list_head with _ | fh0
      · -- (some p2, some nx, none)
        simp only [free, hBp, hcond, if_false, hgb, hpcase, hncase, hfcase,
                  setNext, setPrev, setAllocated, getNext, getPrev, getH_writeH_same, getH_writeH_other _ _ _ _ hbp, getH_writeH_other _ _ _ _ hpb2, getH_writeH_other _ _ _ _ hbn, getH_writeH_other _ _ _ _ hnb2, getH_writeH_other _ _ _ _ hnp, getH_writeH_other _ _ _ _ hpn2]
        congr 1
        congr 1
        funext x
        by_cases hx : x = b
        · subst hx
          simp [writeH, migrateMem, getH, hgb, hmb, hpcase, hncase, hfcase, hbp, hpb2, hbn, hnb2, hnp, hpn2]
        · by_cases hx2 : x = p2
          · subst hx2
            simp [writeH, migrateMem, getH, hgb, hmb, hpcase, hncase, hfcase, hbp, hpb2, hbn, hnb2, hnp, hpn2, hx, Ne.symm hx]
          · by_cases hx3 : x = nx
            · subst hx3
              simp [writeH, migrateMem, getH, hgb, hmb, hpcase, hncase, hfcase, hbp, hpb2, hbn, hnb2, hnp, hpn2, hx, Ne.symm hx, hx2, Ne.symm hx2]
            · simp [writeH, migrateMem, getH, hgb, hmb, hpcase, hncase, hfcase, hbp, hpb2, hbn, hnb2, hnp, hpn2, hx, Ne.symm hx, hx2, Ne.symm hx2, hx3, Ne.symm hx3]
      · -- (some p2, some nx, some fh0)
        have hab2 : fh0 ≠ b := by
          intro h; apply hfb2; rw [hfcase, h]
        have hba : b ≠ fh0 := Ne.symm hab2
        have hap2 : fh0 ≠ p2 := by
          intro h; apply hfp p2 hpcase; rw [hfcase, h]
        have hpa : p2 ≠ fh0 := Ne.symm hap2
        have hanx : fh0 ≠ nx := by
          intro h; apply hfn nx hncase; rw [hfcase, h]
        have hnxa : nx ≠ fh0 := Ne.symm hanx
        simp only [free, hBp, hcond, if_false, hgb, hpcase, hncase, hfcase,
                  setNext, setPrev, setAllocated, getNext, getPrev, getH_writeH_same, getH_writeH_other _ _ _ _ hab2, getH_writeH_other _ _ _ _ hba, getH_writeH_other _ _ _ _ hap2, getH_writeH_other _ _ _ _ hpa, getH_writeH_other _ _ _ _ hanx, getH_writeH_other _ _ _ _ hnxa, getH_writeH_other _ _ _ _ hbp, getH_writeH_other _ _ _ _ hpb2, getH_writeH_other _ _ _ _ hbn, getH_writeH_other _ _ _ _ hnb2, getH_writeH_other _ _ _ _ hnp, getH_writeH_other _ _ _ _ hpn2]
        congr 1
        congr 1
        funext x
        by_cases hx : x = b
        · subst hx
          simp [writeH, migrateMem, getH, hgb, hmb, hpcase, hncase, hfcase, hbp, hpb2, hbn, hnb2, hnp, hpn2, hab2, hba, hap2, hpa, hanx, hnxa]
        · by_cases hx2 : x = p2
          · subst hx2
            simp [writeH, migrateMem, getH, hgb, hmb, hpcase, hncase, hfcase, hbp, hpb2, hbn, hnb2, hnp, hpn2, hab2, hba, hap2, hpa, hanx, hnxa, hx, Ne.symm hx]
          · by_cases hx3 : x = nx
            · subst hx3
              simp [writeH, migrateMem, getH, hgb, hmb, hpcase, hncase, hfcase, hbp, hpb2, hbn, hnb2, hnp, hpn2, hab2, hba, hap2, hpa, hanx, hnxa, hx, Ne.symm hx, hx2, Ne.symm hx2]
            · by_cases hx4 : x = fh0
              · subst hx4
                simp [writeH, migrateMem, getH, hgb, hmb, hpcase, hncase, hfcase, hbp, hpb2, hbn, hnb2, hnp, hpn2, hab2, hba, hap2, hpa, hanx, hnxa, hx, Ne.symm hx, hx2, Ne.symm hx2, hx3, Ne.symm hx3]
              · simp [writeH, migrateMem, getH, hgb, hmb, hpcase, hncase, hfcase, hbp, hpb2, hbn, hnb2, hnp, hpn2, hab2, hba, hap2, hpa, hanx, hnxa, hx, Ne.symm hx, hx2, Ne.symm hx2, hx3, Ne.symm hx3, hx4, Ne.symm hx4]

/-- The net effect of `malloc`'s pointer-bumping path: the bump cursor is
advanced by the alignment padding, the fresh header is written at the
padded cursor and linked at the head of the allocated list, and only then
is the region bound checked; on failure NULL is returned with the header
still linked and the padded cursor kept. -/
theorem malloc_bump_effect (base size : Nat) (s : AllocState)
    (hinit : s.start_addr ≠ 0)
    (hsz : size ≠ 0)
    (hfb : findBest s.mem size (s.end_addr + 1) s.free_list_head none = some none)
    (hahfa : s.alloc_list_head ≠ some (s.free_addr + bumpPad s.free_addr)) :
    malloc base s size =
      (if s.end_addr <
          (s.free_addr + bumpPad s.free_addr + headerSize + size) % SIZE_T_MOD then
        some (none,
          { s with free_addr := s.free_addr + bumpPad s.free_addr,
                   alloc_list_head := some (s.free_addr + bumpPad s.free_addr),
                   mem := bumpMem s.mem (s.free_addr + bumpPad s.free_addr) size
                     s.alloc_list_head })
      else
        some (some (HEADER_TO_BLOCK (s.free_addr + bumpPad s.free_addr)),
          { s with free_addr :=
                     (s.free_addr + bumpPad s.free_addr + headerSize + size) % SIZE_T_MOD,
                   alloc_list_head := some (s.free_addr + bumpPad s.free_addr),
                   mem := bumpMem s.mem (s.free_addr + bumpPad s.free_addr) size
                     s.alloc_list_head })) := by
  have hini : init base s = s := init_noop base s hinit
  rcases hacase : s.alloc_list_head with _ | ah0
  · simp only [malloc, hini, if_neg hsz, hfb, hacase, HEADER_TO_BLOCK,
      setNext, setPrev, setSize, setAllocated, getNext, getPrev, getH_writeH_same]
    split_ifs with hcmp
    · congr 1
      congr 1
      congr 1
      funext x
      by_cases hx : x = s.free_addr + bumpPad s.free_addr
      · subst hx
        simp [writeH, bumpMem, hacase]
      · simp [writeH, bumpMem, hacase, hx, Ne.symm hx]
    · congr 1
      congr 1
      congr 1
      funext x
      by_cases hx : x = s.free_addr + bumpPad s.free_addr
      · subst hx
        simp [writeH, bumpMem, hacase]
      · simp [writeH, bumpMem, hacase, hx, Ne.symm hx]
  · have hafa : ah0 ≠ s.free_addr + bumpPad s.free_addr := by
      intro h; apply hahfa; rw [hacase, h]
    have hfaa : s.free_addr + bumpPad s.free_addr ≠ ah0 := Ne.symm hafa
    simp only [malloc, hini, if_neg hsz, hfb, hacase, HEADER_TO_BLOCK,
      setNext, setPrev, setSize, setAllocated, getNext, getPrev, getH_writeH_same,
      getH_writeH_other _ _ _ _ hafa, getH_writeH_other _ _ _ _ hfaa]
    split_ifs with hcmp
    · congr 1
      congr 1
      congr 1
      funext x
      by_cases hx : x = s.free_addr + bumpPad s.free_addr
      · subst hx
        simp [writeH, bumpMem, hacase, hafa, hfaa]
      · by_cases hx2 : x = ah0
        · subst hx2
          simp [writeH, bumpMem, hacase, hafa, hx, Ne.symm hx]
        · simp [writeH, bumpMem, hacase, hx, Ne.symm hx, hx2, Ne.symm hx2]
    · congr 1
      congr 1
      congr 1
      funext x
      by_cases hx : x = s.free_addr + bumpPad s.free_addr
      · subst hx
        simp [writeH, bumpMem, hacase, hafa, hfaa]
      · by_cases hx2 : x = ah0
        · subst hx2
          simp [writeH, bumpMem, hacase, hafa, hx, Ne.symm hx]
        · simp [writeH, bumpMem, hacase, hx, Ne.symm hx, hx2, Ne.symm hx2]

/- ===================================================================
   Pointwise facts about the patched stores.
   =================================================================== -/

theorem migrateMem_b (m : Mem) (b : Nat) (hb : Header) (nh : Option Nat) (fl : Bool) :
    migrateMem m b hb nh fl b = some ⟨nh, none, hb.size, fl⟩ := by
  simp [migrateMem]

theorem migrateMem_getSize (m : Mem) (b : Nat) (hb : Header) (nh : Option Nat) (fl : Bool)
    (hmb : m b = some hb) :
    ∀ x, getSize (migrateMem m b hb nh fl) x = getSize m x := by
  intro x
  simp only [migrateMem, getSize, getH]
  split_ifs with h1 h2 h3 h4
  · subst h1; simp [hmb]
  · simp
  · simp
  · simp
  · rfl

theorem migrateMem_getAllocated_ne (m : Mem) (b : Nat) (hb : Header) (nh : Option Nat)
    (fl : Bool) (x : Nat) (hx : x ≠ b) :
    getAllocated (migrateMem m b hb nh fl) x = getAllocated m x := by
  simp only [migrateMem, getAllocated, getH]
  rw [if_neg hx]
  split_ifs <;> simp

theorem migrateMem_getAllocated_b (m : Mem) (b : Nat) (hb : Header) (nh : Option Nat)
    (fl : Bool) :
    getAllocated (migrateMem m b hb nh fl) b = fl := by
  simp [migrateMem, getAllocated, getH]

theorem migrateMem_isSome_iff (m : Mem) (b : Nat) (hb : Header) (nh : Option Nat) (fl : Bool)
    (hmb : m b = some hb)
    (hp : ∀ q, hb.prev = some q → (m q).isSome)
    (hn : ∀ q, hb.next = some q → (m q).isSome)
    (hh : ∀ q, nh = some q → (m q).isSome) :
    ∀ x, ((migrateMem m b hb nh fl) x).isSome ↔ (m x).isSome := by
  intro x
  simp only [migrateMem]
  split_ifs with h1 h2 h3 h4
  · subst h1; simp [hmb]
  · simp only [Option.isSome_some, true_iff]; exact hp x h2
  · simp only [Option.isSome_some, true_iff]; exact hn x h3
  · simp only [Option.isSome_some, true_iff]; exact hh x h4
  · exact Iff.rfl

theorem bumpMem_fa (m : Mem) (fa size : Nat) (ah : Option Nat) :
    bumpMem m fa size ah fa = some ⟨ah, none, size, true⟩ := by
  simp [bumpMem]

theorem bumpMem_getSize_ne (m : Mem) (fa size : Nat) (ah : Option Nat) (x : Nat)
    (hx : x ≠ fa) :
    getSize (bumpMem m fa size ah) x = getSize m x := by
  simp only [bumpMem, getSize, getH]
  rw [if_neg hx]
  split_ifs <;> simp

theorem bumpMem_getAllocated_ne (m : Mem) (fa size : Nat) (ah : Option Nat) (x : Nat)
    (hx : x ≠ fa) :
    getAllocated (bumpMem m fa size ah) x = getAllocated m x := by
  simp only [bumpMem, getAllocated, getH]
  rw [if_neg hx]
  split_ifs <;> simp

theorem bumpMem_isSome (m : Mem) (fa size : Nat) (ah : Option Nat)
    (hh : ∀ q, ah = some q → (m q).isSome) :
    ∀ x, ((bumpMem m fa size ah) x).isSome ↔ (x = fa ∨ (m x).isSome) := by
  intro x
  simp only [bumpMem]
  split_ifs with h1 h2
  · simp [h1]
  · simp only [Option.isSome_some, true_iff]
    exact Or.inr (hh x h2)
  · constructor
    · exact Or.inr
    · rintro (rfl | h)
      · exact absurd rfl h1
      · exact h

/- ===================================================================
   Extracting neighbourhood facts from the list invariant.
   =================================================================== -/

theorem mid_facts (s : AllocState) (fs as l1 l2 : List Nat) (b : Nat)
    (hinv : listInvWith s fs as) (hsplit : fs = l1 ++ b :: l2) :
    ∃ hb, s.mem b = some hb ∧ hb.allocated = false ∧
      (hb.prev = none ↔ l1 = []) ∧
      (∀ q, hb.prev = some q → q ∈ l1) ∧
      (∀ nx, hb.next = some nx → nx ∈ l2) := by
  subst hsplit
  obtain ⟨hchF, hchA, hnd, hflF, hflA, hdom⟩ := hinv
  obtain ⟨pv1, hb, hseg, hmb, hbprev, hrest⟩ :=
    chain_split_mid s.mem b l1 l2 none s.free_list_head hchF
  have hmemb : b ∈ l1 ++ b :: l2 := List.mem_append_right _ (List.mem_cons_self b l2)
  have hflb : hb.allocated = false := by
    have := hflF b hmemb
    simpa [getAllocated, getH, hmb] using this
  refine ⟨hb, hmb, hflb, ?_, ?_, ?_⟩
  · constructor
    · intro hpn
      by_contra hl1
      obtain ⟨q, hq, _⟩ := chainSeg_end_mem s.mem l1 none s.free_list_head pv1 (some b) hseg hl1
      rw [hbprev, hq] at hpn
      cases hpn
    · intro hl1
      subst hl1
      obtain ⟨h1, _⟩ := hseg
      rw [hbprev, h1]
  · intro q hq
    by_cases hl1 : l1 = []
    · subst hl1
      obtain ⟨h1, _⟩ := hseg
      rw [hbprev, h1] at hq
      cases hq
    · obtain ⟨q2, hq2, hq2m⟩ := chainSeg_end_mem s.mem l1 none s.free_list_head pv1 (some b) hseg hl1
      rw [hbprev, hq2] at hq
      injection hq with hqe
      subst hqe
      exact hq2m
  · intro nx hnx
    cases hl2 : l2 with
    | nil =>
      rw [hl2] at hrest
      have : hb.next = none := hrest
      rw [this] at hnx
      cases hnx
    | cons c cs =>
      rw [hl2] at hrest
      rw [hrest.1] at hnx
      injection hnx with hnxe
      subst hnxe
      exact List.mem_cons_self c cs

theorem head_facts (m : Mem) (hd : Option Nat) (xs : List Nat) (hch : chain m none hd xs) :
    (xs = [] → hd = none) ∧ (∀ a0, hd = some a0 → a0 ∈ xs) := by
  constructor
  · intro hxs; subst hxs; exact hch
  · intro a0 ha0
    cases xs with
    | nil => rw [(hch : hd = none)] at ha0; cases ha0
    | cons c cs =>
      rw [hch.1] at ha0
      injection ha0 with he
      subst he
      exact List.mem_cons_self c cs

/- ===================================================================
   The hit path preserves the list invariant.
   =================================================================== -/

theorem malloc_hit_preserves (base size b bs : Nat) (s : AllocState)
    (fs as l1 l2 : List Nat)
    (hinv : listInvWith s fs as)
    (hsplit : fs = l1 ++ b :: l2)
    (hinits : s.start_addr ≠ 0)
    (hsz : size ≠ 0)
    (hfb : findBest s.mem size (s.end_addr + 1) s.free_list_head none = some (some (b, bs))) :
    ∃ s' hb, s.mem b = some hb ∧
      malloc base s size = some (some (HEADER_TO_BLOCK b), s') ∧
      listInvWith s' (l1 ++ l2) (b :: as) ∧
      s'.free_addr = s.free_addr ∧ s'.start_addr = s.start_addr ∧
      s'.end_addr = s.end_addr ∧ s'.data = s.data ∧
      (∀ x, getSize s'.mem x = getSize s.mem x) ∧
      (∀ x, x ≠ b → getAllocated s'.mem x = getAllocated s.mem x) ∧
      getAllocated s'.mem b = true ∧
      (∀ x, (s'.mem x).isSome ↔ (s.mem x).isSome) := by
  obtain ⟨hb, hmb, hflb, hprevIff, hprevMem, hnextMem⟩ := mid_facts s fs as l1 l2 b hinv hsplit
  subst hsplit
  obtain ⟨hchF, hchA, hnd, hflF, hflA, hdom⟩ := hinv
  have hndFS : (l1 ++ b :: l2).Nodup := hnd.of_append_left
  have hndAS : as.Nodup := hnd.of_append_right
  have hdisj : List.Disjoint (l1 ++ b :: l2) as := List.disjoint_of_nodup_append hnd
  have hbL : b ∈ l1 ++ b :: l2 := List.mem_append_right _ (List.mem_cons_self b l2)
  have hbNotAs : b ∉ as := fun h => hdisj hbL h
  have hdisj12 : List.Disjoint l1 (b :: l2) := List.disjoint_of_nodup_append hndFS
  have hbNotL1 : b ∉ l1 := fun h => hdisj12 h (List.mem_cons_self b l2)
  have hbNotL2 : b ∉ l2 := (List.nodup_cons.mp hndFS.of_append_right).1
  have hL1dL2 : ∀ q ∈ l1, q ∉ l2 :=
    fun q hq hq2 => hdisj12 hq (List.mem_cons_of_mem b hq2)
  obtain ⟨hAnil, hAmem⟩ := head_facts s.mem s.alloc_list_head as hchA
  have hpb : hb.prev ≠ some b := fun h => hbNotL1 (hprevMem b h)
  have hnb : hb.next ≠ some b := fun h => hbNotL2 (hnextMem b h)
  have hpn : ∀ p, hb.prev = some p → hb.next ≠ some p :=
    fun p hp hn => hL1dL2 p (hprevMem p hp) (hnextMem p hn)
  have hab : s.alloc_list_head ≠ some b := fun h => hbNotAs (hAmem b h)
  have hap : ∀ p, hb.prev = some p → s.alloc_list_head ≠ some p :=
    fun p hp h => hdisj (List.mem_append_left _ (hprevMem p hp)) (hAmem p h)
  have han : ∀ nx, hb.next = some nx → s.alloc_list_head ≠ some nx :=
    fun nx hn h =>
      hdisj (List.mem_append_right _ (List.mem_cons_of_mem b (hnextMem nx hn))) (hAmem nx h)
  have heff := malloc_hit_effect base size b bs s hb hinits hsz hfb hmb hpb hnb hpn hab hap han
  -- facts about the patched store
  have hprev' : ∀ p, hb.prev = some p →
      migrateMem s.mem b hb s.alloc_list_head true p =
        some { getH s.mem p with next := hb.next } := by
    intro p hp
    have hpneb : p ≠ b := fun h => hbNotL1 (h ▸ hprevMem p hp)
    simp [migrateMem, hpneb, hp]
  have hnext' : ∀ nx, hb.next = some nx →
      migrateMem s.mem b hb s.alloc_list_head true nx =
        some { getH s.mem nx with prev := hb.prev } := by
    intro nx hn
    have hnxneb : nx ≠ b := fun h => hbNotL2 (h ▸ hnextMem nx hn)
    have hpnenx : hb.prev ≠ some nx := fun hq => hL1dL2 nx (hprevMem nx hq) (hnextMem nx hn)
    have hahnenx : s.alloc_list_head ≠ some nx := han nx hn
    simp [migrateMem, hnxneb, hpnenx, hn, hahnenx]
  have hPl2' : ∀ p, hb.prev = some p → p ∉ l2 :=
    fun p hp => hL1dL2 p (hprevMem p hp)
  have hagree' : ∀ y ∈ l1 ++ l2, some y ≠ hb.prev → some y ≠ hb.next →
      migrateMem s.mem b hb s.alloc_list_head true y = s.mem y := by
    intro y hy hyp hyn
    have hyFs : y ∈ l1 ++ b :: l2 := by
      rcases List.mem_append.mp hy with h | h
      · exact List.mem_append_left _ h
      · exact List.mem_append_right _ (List.mem_cons_of_mem b h)
    have hyb : y ≠ b := by
      intro h
      subst h
      rcases List.mem_append.mp hy with h | h
      · exact hbNotL1 h
      · exact hbNotL2 h
    have hahy : s.alloc_list_head ≠ some y := fun h => hdisj hyFs (hAmem y h)
    simp [migrateMem, hyb, Ne.symm hyp, Ne.symm hyn, hahy]
  have hunlink := chain_unlink s.mem (migrateMem s.mem b hb s.alloc_list_head true) b hb l2
    hmb hprev' hnext' hPl2' l1 none s.free_list_head hchF hndFS hagree'
  have hpush : chain (migrateMem s.mem b hb s.alloc_list_head true) none (some b) (b :: as) := by
    refine chain_push s.mem _ b ⟨s.alloc_list_head, none, hb.size, true⟩ as s.alloc_list_head
      hchA hndAS (migrateMem_b s.mem b hb s.alloc_list_head true) rfl rfl ?_ ?_
    · intro nx hnx
      have hnxAs : nx ∈ as := hAmem nx hnx
      have hnxneb : nx ≠ b := fun h => hbNotAs (h ▸ hnxAs)
      have hpne : hb.prev ≠ some nx :=
        fun hq => hdisj (List.mem_append_left _ (hprevMem nx hq)) hnxAs
      have hnne : hb.next ≠ some nx :=
        fun hq => hdisj (List.mem_append_right _ (List.mem_cons_of_mem b (hnextMem nx hq))) hnxAs
      simp [migrateMem, hnxneb, hpne, hnne, hnx]
    · intro y hy hyA
      have hyneb : y ≠ b := fun h => hbNotAs (h ▸ hy)
      have hpne : hb.prev ≠ some y :=
        fun hq => hdisj (List.mem_append_left _ (hprevMem y hq)) hy
      have hnne : hb.next ≠ some y :=
        fun hq => hdisj (List.mem_append_right _ (List.mem_cons_of_mem b (hnextMem y hq))) hy
      simp [migrateMem, hyneb, hpne, hnne, Ne.symm hyA]
  refine ⟨_, hb, hmb, heff, ?_, rfl, rfl, rfl, rfl,
    migrateMem_getSize s.mem b hb s.alloc_list_head true hmb,
    (fun x hx => migrateMem_getAllocated_ne s.mem b hb s.alloc_list_head true x hx),
    migrateMem_getAllocated_b s.mem b hb s.alloc_list_head true, ?_⟩
  · -- the list invariant in the new state
    refine ⟨?_, hpush, ?_, ?_, ?_, ?_⟩
    · -- free chain
      show chain (migrateMem s.mem b hb s.alloc_list_head true) none
        (if hb.prev = none then hb.next else s.free_list_head) (l1 ++ l2)
      by_cases hl1 : l1 = []
      · have hpn0 : hb.prev = none := hprevIff.mpr hl1
        rw [if_pos hpn0]
        have : l1.isEmpty = true := by rw [hl1]; rfl
        rw [this] at hunlink
        simpa using hunlink
      · have hpn0 : hb.prev ≠ none := fun h => hl1 (hprevIff.mp h)
        rw [if_neg hpn0]
        have : l1.isEmpty = false := by
          cases l1 with
          | nil => exact absurd rfl hl1
          | cons c cs => rfl
        rw [this] at hunlink
        simpa using hunlink
    · -- Nodup
      have h1 : (l1 ++ l2) ++ (b :: as) = l1 ++ (l2 ++ b :: as) := by
        simp [List.append_assoc]
      have h2 : (l1 ++ b :: l2) ++ as = l1 ++ (b :: (l2 ++ as)) := by
        simp [List.append_assoc]
      have hperm : ((l1 ++ l2) ++ (b :: as)).Perm ((l1 ++ b :: l2) ++ as) := by
        rw [h1, h2]
        exact List.Perm.append_left l1 List.perm_middle
      exact (List.Perm.nodup_iff hperm).mpr hnd
    · -- free flags
      intro y hy
      have hyb : y ≠ b := by
        intro h
        subst h
        rcases List.mem_append.mp hy with h | h
        · exact hbNotL1 h
        · exact hbNotL2 h
      rw [migrateMem_getAllocated_ne s.mem b hb s.alloc_list_head true y hyb]
      refine hflF y ?_
      rcases List.mem_append.mp hy with h | h
      · exact List.mem_append_left _ h
      · exact List.mem_append_right _ (List.mem_cons_of_mem b h)
    · -- alloc flags
      intro y hy
      rcases List.mem_cons.mp hy with rfl | h
      · exact migrateMem_getAllocated_b s.mem y hb s.alloc_list_head true
      · have hyb : y ≠ b := fun hc => hbNotAs (hc ▸ h)
        rw [migrateMem_getAllocated_ne s.mem b hb s.alloc_list_head true y hyb]
        exact hflA y h
    · -- partition
      intro x hx
      have hiff := migrateMem_isSome_iff s.mem b hb s.alloc_list_head true hmb
        (fun q hq => chain_mem_isSome s.mem _ none s.free_list_head hchF q
          (List.mem_append_left _ (hprevMem q hq)))
        (fun q hq => chain_mem_isSome s.mem _ none s.free_list_head hchF q
          (List.mem_append_right _ (List.mem_cons_of_mem b (hnextMem q hq))))
        (fun q hq => chain_mem_isSome s.mem as none s.alloc_list_head hchA q (hAmem q hq))
      have hold := hdom x ((hiff x).mp hx)
      rcases hold with h | h
      · rcases List.mem_append.mp h with h1 | h1
        · exact Or.inl (List.mem_append_left _ h1)
        · rcases List.mem_cons.mp h1 with rfl | h2
          · exact Or.inr (List.mem_cons_self x as)
          · exact Or.inl (List.mem_append_right _ h2)
      · exact Or.inr (List.mem_cons_of_mem b h)
  · -- isSome preserved
    exact migrateMem_isSome_iff s.mem b hb s.alloc_list_head true hmb
      (fun q hq => chain_mem_isSome s.mem _ none s.free_list_head hchF q
        (List.mem_append_left _ (hprevMem q hq)))
      (fun q hq => chain_mem_isSome s.mem _ none s.free_list_head hchF q
        (List.mem_append_right _ (List.mem_cons_of_mem b (hnextMem q hq))))
      (fun q hq => chain_mem_isSome s.mem as none s.alloc_list_head hchA q (hAmem q hq))

/- ===================================================================
   free preserves the list invariant.
   =================================================================== -/

theorem chain_mid_facts (m : Mem) (hd : Option Nat) (l1 l2 : List Nat) (b : Nat)
    (hch : chain m none hd (l1 ++ b :: l2)) :
    ∃ hb, m b = some hb ∧
      (hb.prev = none ↔ l1 = []) ∧
      (∀ q, hb.prev = some q → q ∈ l1) ∧
      (∀ nx, hb.next = some nx → nx ∈ l2) := by
  obtain ⟨pv1, hb, hseg, hmb, hbprev, hrest⟩ := chain_split_mid m b l1 l2 none hd hch
  refine ⟨hb, hmb, ?_, ?_, ?_⟩
  · constructor
    · intro hpn
      by_contra hl1
      obtain ⟨q, hq, _⟩ := chainSeg_end_mem m l1 none hd pv1 (some b) hseg hl1
      rw [hbprev, hq] at hpn
      cases hpn
    · intro hl1
      subst hl1
      obtain ⟨h1, _⟩ := hseg
      rw [hbprev, h1]
  · intro q hq
    by_cases hl1 : l1 = []
    · subst hl1
      obtain ⟨h1, _⟩ := hseg
      rw [hbprev, h1] at hq
      cases hq
    · obtain ⟨q2, hq2, hq2m⟩ := chainSeg_end_mem m l1 none hd pv1 (some b) hseg hl1
      rw [hbprev, hq2] at hq
      injection hq with hqe
      subst hqe
      exact hq2m
  · intro nx hnx
    cases hl2 : l2 with
    | nil =>
      rw [hl2] at hrest
      have hn : hb.next = none := hrest
      rw [hn] at hnx
      cases hnx
    | cons c cs =>
      rw [hl2] at hrest
      rw [hrest.1] at hnx
      injection hnx with hnxe
      subst hnxe
      exact List.mem_cons_self c cs

theorem free_preserves (p b : Nat) (s : AllocState) (fs as a1 a2 : List Nat)
    (hinv : listInvWith s fs as)
    (hsplit : as = a1 ++ b :: a2)
    (hBp : BLOCK_TO_HEADER p = b) :
    ∃ s' hb, s.mem b = some hb ∧
      free s (some p) = some s' ∧
      listInvWith s' (b :: fs) (a1 ++ a2) ∧
      s'.free_addr = s.free_addr ∧ s'.start_addr = s.start_addr ∧
      s'.end_addr = s.end_addr ∧ s'.data = s.data ∧
      s'.free_list_head = some b ∧
      (∀ x, getSize s'.mem x = getSize s.mem x) ∧
      (∀ x, x ≠ b → getAllocated s'.mem x = getAllocated s.mem x) ∧
      getAllocated s'.mem b = false ∧
      (∀ x, (s'.mem x).isSome ↔ (s.mem x).isSome) := by
  subst hsplit
  obtain ⟨hchF, hchA, hnd, hflF, hflA, hdom⟩ := hinv
  obtain ⟨hb, hmb, hprevIff, hprevMem, hnextMem⟩ :=
    chain_mid_facts s.mem s.alloc_list_head a1 a2 b hchA
  have hndFS : fs.Nodup := hnd.of_append_left
  have hndAS : (a1 ++ b :: a2).Nodup := hnd.of_append_right
  have hdisj : List.Disjoint fs (a1 ++ b :: a2) := List.disjoint_of_nodup_append hnd
  have hbA : b ∈ a1 ++ b :: a2 := List.mem_append_right _ (List.mem_cons_self b a2)
  have hbNotFs : b ∉ fs := fun h => hdisj h hbA
  have hdisj12 : List.Disjoint a1 (b :: a2) := List.disjoint_of_nodup_append hndAS
  have hbNotA1 : b ∉ a1 := fun h => hdisj12 h (List.mem_cons_self b a2)
  have hbNotA2 : b ∉ a2 := (List.nodup_cons.mp hndAS.of_append_right).1
  have hA1dA2 : ∀ q ∈ a1, q ∉ a2 :=
    fun q hq hq2 => hdisj12 hq (List.mem_cons_of_mem b hq2)
  obtain ⟨hFnil, hFmem⟩ := head_facts s.mem s.free_list_head fs hchF
  have hflb : hb.allocated = true := by
    have := hflA b hbA
    simpa [getAllocated, getH, hmb] using this
  have hpb : hb.prev ≠ some b := fun h => hbNotA1 (hprevMem b h)
  have hnb : hb.next ≠ some b := fun h => hbNotA2 (hnextMem b h)
  have hpn : ∀ q, hb.prev = some q → hb.next ≠ some q :=
    fun q hp hn => hA1dA2 q (hprevMem q hp) (hnextMem q hn)
  have hfb2 : s.free_list_head ≠ some b := fun h => hbNotFs (hFmem b h)
  have hfp : ∀ q, hb.prev = some q → s.free_list_head ≠ some q :=
    fun q hp h => hdisj (hFmem q h) (List.mem_append_left _ (hprevMem q hp))
  have hfn : ∀ nx, hb.next = some nx → s.free_list_head ≠ some nx :=
    fun nx hn h =>
      hdisj (hFmem nx h) (List.mem_append_right _ (List.mem_cons_of_mem b (hnextMem nx hn)))
  have heff := free_effect p b s hb hBp hmb hflb hpb hnb hpn hfb2 hfp hfn
  have hprev' : ∀ q, hb.prev = some q →
      migrateMem s.mem b hb s.free_list_head false q =
        some { getH s.mem q with next := hb.next } := by
    intro q hp
    have hqneb : q ≠ b := fun h => hbNotA1 (h ▸ hprevMem q hp)
    simp [migrateMem, hqneb, hp]
  have hnext' : ∀ nx, hb.next = some nx →
      migrateMem s.mem b hb s.free_list_head false nx =
        some { getH s.mem nx with prev := hb.prev } := by
    intro nx hn
    have hnxneb : nx ≠ b := fun h => hbNotA2 (h ▸ hnextMem nx hn)
    have hpnenx : hb.prev ≠ some nx := fun hq => hA1dA2 nx (hprevMem nx hq) (hnextMem nx hn)
    have hfhnenx : s.free_list_head ≠ some nx := hfn nx hn
    simp [migrateMem, hnxneb, hpnenx, hn, hfhnenx]
  have hPl2' : ∀ q, hb.prev = some q → q ∉ a2 :=
    fun q hp => hA1dA2 q (hprevMem q hp)
  have hagree' : ∀ y ∈ a1 ++ a2, some y ≠ hb.prev → some y ≠ hb.next →
      migrateMem s.mem b hb s.free_list_head false y = s.mem y := by
    intro y hy hyp hyn
    have hyAs : y ∈ a1 ++ b :: a2 := by
      rcases List.mem_append.mp hy with h | h
      · exact List.mem_append_left _ h
      · exact List.mem_append_right _ (List.mem_cons_of_mem b h)
    have hyb : y ≠ b := by
      intro h
      subst h
      rcases List.mem_append.mp hy with h | h
      · exact hbNotA1 h
      · exact hbNotA2 h
    have hfhy : s.free_list_head ≠ some y := fun h => hdisj (hFmem y h) hyAs
    simp [migrateMem, hyb, Ne.symm hyp, Ne.symm hyn, hfhy]
  have hunlink := chain_unlink s.mem (migrateMem s.mem b hb s.free_list_head false) b hb a2
    hmb hprev' hnext' hPl2' a1 none s.alloc_list_head hchA hndAS hagree'
  have hpush : chain (migrateMem s.mem b hb s.free_list_head false) none (some b) (b :: fs) := by
    refine chain_push s.mem _ b ⟨s.free_list_head, none, hb.size, false⟩ fs s.free_list_head
      hchF hndFS (migrateMem_b s.mem b hb s.free_list_head false) rfl rfl ?_ ?_
    · intro nx hnx
      have hnxFs : nx ∈ fs := hFmem nx hnx
      have hnxneb : nx ≠ b := fun h => hbNotFs (h ▸ hnxFs)
      have hpne : hb.prev ≠ some nx :=
        fun hq => hdisj hnxFs (List.mem_append_left _ (hprevMem nx hq))
      have hnne : hb.next ≠ some nx :=
        fun hq => hdisj hnxFs (List.mem_append_right _ (List.mem_cons_of_mem b (hnextMem nx hq)))
      simp [migrateMem, hnxneb, hpne, hnne, hnx]
    · intro y hy hyF
      have hyneb : y ≠ b := fun h => hbNotFs (h ▸ hy)
      have hpne : hb.prev ≠ some y :=
        fun hq => hdisj hy (List.mem_append_left _ (hprevMem y hq))
      have hnne : hb.next ≠ some y :=
        fun hq => hdisj hy (List.mem_append_right _ (List.mem_cons_of_mem b (hnextMem y hq)))
      simp [migrateMem, hyneb, hpne, hnne, Ne.symm hyF]
  have hisSome := migrateMem_isSome_iff s.mem b hb s.free_list_head false hmb
    (fun q hq => chain_mem_isSome s.mem _ none s.alloc_list_head hchA q
      (List.mem_append_left _ (hprevMem q hq)))
    (fun q hq => chain_mem_isSome s.mem _ none s.alloc_list_head hchA q
      (List.mem_append_right _ (List.mem_cons_of_mem b (hnextMem q hq))))
    (fun q hq => chain_mem_isSome s.mem fs none s.free_list_head hchF q (hFmem q hq))
  refine ⟨_, hb, hmb, heff, ?_, rfl, rfl, rfl, rfl, rfl,
    migrateMem_getSize s.mem b hb s.free_list_head false hmb,
    (fun x hx => migrateMem_getAllocated_ne s.mem b hb s.free_list_head false x hx),
    migrateMem_getAllocated_b s.mem b hb s.free_list_head false, hisSome⟩
  refine ⟨hpush, ?_, ?_, ?_, ?_, ?_⟩
  · -- alloc chain
    show chain (migrateMem s.mem b hb s.free_list_head false) none
      (if hb.prev = none then hb.next else s.alloc_list_head) (a1 ++ a2)
    by_cases hl1 : a1 = []
    · have hpn0 : hb.prev = none := hprevIff.mpr hl1
      rw [if_pos hpn0]
      have he : a1.isEmpty = true := by rw [hl1]; rfl
      rw [he] at hunlink
      simpa using hunlink
    · have hpn0 : hb.prev ≠ none := fun h => hl1 (hprevIff.mp h)
      rw [if_neg hpn0]
      have he : a1.isEmpty = false := by
        cases a1 with
        | nil => exact absurd rfl hl1
        | cons c cs => rfl
      rw [he] at hunlink
      simpa using hunlink
  · -- Nodup
    have h1 : (b :: fs) ++ (a1 ++ a2) = b :: (fs ++ (a1 ++ a2)) := rfl
    have hperm : ((b :: fs) ++ (a1 ++ a2)).Perm (fs ++ (a1 ++ b :: a2)) := by
      rw [h1]
      have h2 : fs ++ (a1 ++ b :: a2) = (fs ++ a1) ++ b :: a2 := by
        simp [List.append_assoc]
      have h3 : fs ++ (a1 ++ a2) = (fs ++ a1) ++ a2 := by
        simp [List.append_assoc]
      rw [h2, h3]
      exact List.perm_middle.symm
    exact (List.Perm.nodup_iff hperm).mpr hnd
  · -- free flags
    intro y hy
    rcases List.mem_cons.mp hy with rfl | h
    · exact migrateMem_getAllocated_b s.mem y hb s.free_list_head false
    · have hyb : y ≠ b := fun hc => hbNotFs (hc ▸ h)
      rw [migrateMem_getAllocated_ne s.mem b hb s.free_list_head false y hyb]
      exact hflF y h
  · -- alloc flags
    intro y hy
    have hyb : y ≠ b := by
      intro h
      subst h
      rcases List.mem_append.mp hy with h | h
      · exact hbNotA1 h
      · exact hbNotA2 h
    rw [migrateMem_getAllocated_ne s.mem b hb s.free_list_head false y hyb]
    refine hflA y ?_
    rcases List.mem_append.mp hy with h | h
    · exact List.mem_append_left _ h
    · exact List.mem_append_right _ (List.mem_cons_of_mem b h)
  · -- partition
    intro x hx
    have hold := hdom x ((hisSome x).mp hx)
    rcases hold with h | h
    · exact Or.inl (List.mem_cons_of_mem b h)
    · rcases List.mem_append.mp h with h1 | h1
      · exact Or.inr (List.mem_append_left _ h1)
      · rcases List.mem_cons.mp h1 with rfl | h2
        · exact Or.inl (List.mem_cons_self x fs)
        · exact Or.inr (List.mem_append_right _ h2)

/- ===================================================================
   The bump path preserves the list invariant (on both outcomes).
   =================================================================== -/

theorem malloc_bump_preserves (base size : Nat) (s : AllocState) (fs as : List Nat)
    (hinv : listInvWith s fs as)
    (hinits : s.start_addr ≠ 0)
    (hsz : size ≠ 0)
    (hfb : findBest s.mem size (s.end_addr + 1) s.free_list_head none = some none)
    (hfresh : s.mem (s.free_addr + bumpPad s.free_addr) = none) :
    ∃ r s', malloc base s size = some (r, s') ∧
      listInvWith s' fs ((s.free_addr + bumpPad s.free_addr) :: as) ∧
      s'.start_addr = s.start_addr ∧ s'.end_addr = s.end_addr ∧ s'.data = s.data ∧
      s'.free_list_head = s.free_list_head ∧
      (s.free_addr + bumpPad s.free_addr + headerSize + size < SIZE_T_MOD →
        s.free_addr ≤ s'.free_addr) ∧
      (r = none ↔ s.end_addr <
        (s.free_addr + bumpPad s.free_addr + headerSize + size) % SIZE_T_MOD) ∧
      (r ≠ none → r = some (HEADER_TO_BLOCK (s.free_addr + bumpPad s.free_addr)) ∧
        s'.free_addr = (s.free_addr + bumpPad s.free_addr + headerSize + size) % SIZE_T_MOD ∧
        s'.free_addr ≤ s.end_addr) ∧
      (r = none → s'.free_addr = s.free_addr + bumpPad s.free_addr) ∧
      (∀ x, x ≠ s.free_addr + bumpPad s.free_addr →
        getSize s'.mem x = getSize s.mem x ∧
        getAllocated s'.mem x = getAllocated s.mem x) ∧
      getSize s'.mem (s.free_addr + bumpPad s.free_addr) = size ∧
      (∀ x, (s'.mem x).isSome ↔ (x = s.free_addr + bumpPad s.free_addr ∨ (s.mem x).isSome)) := by
  obtain ⟨hchF, hchA, hnd, hflF, hflA, hdom⟩ := hinv
  obtain ⟨hAnil, hAmem⟩ := head_facts s.mem s.alloc_list_head as hchA
  have hfaNotDom : ∀ y, (s.mem y).isSome → y ≠ s.free_addr + bumpPad s.free_addr := by
    intro y hy hcon
    rw [hcon, hfresh] at hy
    cases hy
  have hfaNotFs : s.free_addr + bumpPad s.free_addr ∉ fs := by
    intro h
    exact hfaNotDom _ (chain_mem_isSome s.mem fs none s.free_list_head hchF _ h) rfl
  have hfaNotAs : s.free_addr + bumpPad s.free_addr ∉ as := by
    intro h
    exact hfaNotDom _ (chain_mem_isSome s.mem as none s.alloc_list_head hchA _ h) rfl
  have hahfa : s.alloc_list_head ≠ some (s.free_addr + bumpPad s.free_addr) :=
    fun h => hfaNotAs (hAmem _ h)
  have heff := malloc_bump_effect base size s hinits hsz hfb hahfa
  -- component facts about the patched store
  have hAllocChain : chain (bumpMem s.mem (s.free_addr + bumpPad s.free_addr) size
      s.alloc_list_head) none (some (s.free_addr + bumpPad s.free_addr))
      ((s.free_addr + bumpPad s.free_addr) :: as) := by
    refine chain_push s.mem _ _ ⟨s.alloc_list_head, none, size, true⟩ as s.alloc_list_head
      hchA hnd.of_append_right (bumpMem_fa s.mem _ size s.alloc_list_head) rfl rfl ?_ ?_
    · intro nx hnx
      have hnxAs : nx ∈ as := hAmem nx hnx
      have hne : nx ≠ s.free_addr + bumpPad s.free_addr :=
        hfaNotDom nx (chain_mem_isSome s.mem as none s.alloc_list_head hchA nx hnxAs)
      simp [bumpMem, hne, hnx]
    · intro y hy hyA
      have hne : y ≠ s.free_addr + bumpPad s.free_addr :=
        hfaNotDom y (chain_mem_isSome s.mem as none s.alloc_list_head hchA y hy)
      simp [bumpMem, hne, Ne.symm hyA]
  have hFreeChain : chain (bumpMem s.mem (s.free_addr + bumpPad s.free_addr) size
      s.alloc_list_head) none s.free_list_head fs := by
    refine chain_congr s.mem _ fs none s.free_list_head ?_ hchF
    intro y hy
    have hne : y ≠ s.free_addr + bumpPad s.free_addr :=
      hfaNotDom y (chain_mem_isSome s.mem fs none s.free_list_head hchF y hy)
    have hay : s.alloc_list_head ≠ some y := by
      intro h
      exact (List.disjoint_of_nodup_append hnd) hy (hAmem y h)
    simp [bumpMem, hne, hay]
  have hNodup : (fs ++ (s.free_addr + bumpPad s.free_addr) :: as).Nodup := by
    have hperm : (fs ++ (s.free_addr + bumpPad s.free_addr) :: as).Perm
        ((s.free_addr + bumpPad s.free_addr) :: (fs ++ as)) := List.perm_middle
    refine (List.Perm.nodup_iff hperm).mpr ?_
    refine List.nodup_cons.mpr ⟨?_, hnd⟩
    intro h
    rcases List.mem_append.mp h with h1 | h1
    · exact hfaNotFs h1
    · exact hfaNotAs h1
  have hFlagF : ∀ y ∈ fs, getAllocated (bumpMem s.mem (s.free_addr + bumpPad s.free_addr)
      size s.alloc_list_head) y = false := by
    intro y hy
    have hne : y ≠ s.free_addr + bumpPad s.free_addr :=
      hfaNotDom y (chain_mem_isSome s.mem fs none s.free_list_head hchF y hy)
    rw [bumpMem_getAllocated_ne s.mem _ size s.alloc_list_head y hne]
    exact hflF y hy
  have hFlagA : ∀ y ∈ (s.free_addr + bumpPad s.free_addr) :: as,
      getAllocated (bumpMem s.mem (s.free_addr + bumpPad s.free_addr)
        size s.alloc_list_head) y = true := by
    intro y hy
    rcases List.mem_cons.mp hy with rfl | h
    · simp [bumpMem, getAllocated, getH]
    · have hne : y ≠ s.free_addr + bumpPad s.free_addr :=
        hfaNotDom y (chain_mem_isSome s.mem as none s.alloc_list_head hchA y h)
      rw [bumpMem_getAllocated_ne s.mem _ size s.alloc_list_head y hne]
      exact hflA y h
  have hSome := bumpMem_isSome s.mem (s.free_addr + bumpPad s.free_addr) size
    s.alloc_list_head
    (fun q hq => chain_mem_isSome s.mem as none s.alloc_list_head hchA q (hAmem q hq))
  have hDom : ∀ x, ((bumpMem s.mem (s.free_addr + bumpPad s.free_addr) size
      s.alloc_list_head) x).isSome →
      x ∈ fs ∨ x ∈ (s.free_addr + bumpPad s.free_addr) :: as := by
    intro x hx
    rcases (hSome x).mp hx with rfl | h
    · exact Or.inr (List.mem_cons_self _ as)
    · rcases hdom x h with h1 | h1
      · exact Or.inl h1
      · exact Or.inr (List.mem_cons_of_mem _ h1)
  have hSizes : ∀ x, x ≠ s.free_addr + bumpPad s.free_addr →
      getSize (bumpMem s.mem (s.free_addr + bumpPad s.free_addr) size s.alloc_list_head) x =
        getSize s.mem x ∧
      getAllocated (bumpMem s.mem (s.free_addr + bumpPad s.free_addr) size
        s.alloc_list_head) x = getAllocated s.mem x :=
    fun x hx => ⟨bumpMem_getSize_ne s.mem _ size s.alloc_list_head x hx,
      bumpMem_getAllocated_ne s.mem _ size s.alloc_list_head x hx⟩
  have hSizeFa : getSize (bumpMem s.mem (s.free_addr + bumpPad s.free_addr) size
      s.alloc_list_head) (s.free_addr + bumpPad s.free_addr) = size := by
    simp [bumpMem, getSize, getH]
  by_cases hcmp : s.end_addr <
      (s.free_addr + bumpPad s.free_addr + headerSize + size) % SIZE_T_MOD
  · rw [if_pos hcmp] at heff
    refine ⟨none, _, heff, ⟨hFreeChain, hAllocChain, hNodup, hFlagF, hFlagA, hDom⟩,
      rfl, rfl, rfl, rfl, fun _ => Nat.le_add_right _ _, ?_, ?_, ?_, hSizes, hSizeFa,
      hSome⟩
    · simp [hcmp]
    · intro h; exact absurd rfl h
    · intro _; rfl
  · rw [if_neg hcmp] at heff
    refine ⟨_, _, heff, ⟨hFreeChain, hAllocChain, hNodup, hFlagF, hFlagA, hDom⟩,
      rfl, rfl, rfl, rfl,
      (by intro hnw
          show s.free_addr ≤
            (s.free_addr + bumpPad s.free_addr + headerSize + size) % SIZE_T_MOD
          rw [Nat.mod_eq_of_lt hnw]
          omega),
      ?_, ?_, ?_, hSizes, hSizeFa, hSome⟩
    · simp [hcmp]
    · intro _
      refine ⟨rfl, rfl, ?_⟩
      exact Nat.le_of_not_lt hcmp
    · intro h; cases h

/- ===================================================================
   malloc preserves the invariants (all paths).
   =================================================================== -/

theorem nodup_length_le (l : List Nat) (n : Nat) (hnd : l.Nodup)
    (hlt : ∀ a ∈ l, a < n) : l.length ≤ n := by
  classical
  have h1 : l.toFinset.card = l.length := List.toFinset_card_of_nodup hnd
  have h2 : l.toFinset ⊆ Finset.range n := by
    intro a ha
    rw [List.mem_toFinset] at ha
    rw [Finset.mem_range]
    exact hlt a ha
  have h3 := Finset.card_le_card h2
  rw [h1, Finset.card_range] at h3
  exact h3

theorem bumpPad_aligns (free : Nat) : (free + bumpPad free + headerSize) % 16 = 0 := by
  unfold bumpPad headerSize
  by_cases h : (32 + free) % 16 = 0
  · simp only [h, ne_eq, not_true_eq_false, if_false]
    omega
  · simp only [h, ne_eq, not_false_eq_true, if_true]
    omega

theorem getAllocated_true_isSome (m : Mem) (a : Nat)
    (h : getAllocated m a = true) : (m a).isSome := by
  by_contra hc
  rw [Option.not_isSome_iff_eq_none] at hc
  rw [getAllocated, getH, hc] at h
  cases h

/-- `malloc` on a state satisfying the invariants: never fatal, preserves
the list invariant, region fields, data, the sizes and flags of allocated
blocks, and alignment.  The bump cursor is non-decreasing, and a returned
block keeps the containment invariant, only as long as the 64-bit
`new_free_addr` sum of line 264 cannot wrap. -/
theorem malloc_preserves_inv (base size : Nat) (s : AllocState)
    (hinits : s.start_addr ≠ 0)
    (hinv : listInv s)
    (hcont : contained s) :
    ∃ r s', malloc base s size = some (r, s') ∧ listInv s' ∧
      s'.start_addr = s.start_addr ∧ s'.end_addr = s.end_addr ∧ s'.data = s.data ∧
      (s.free_addr + bumpPad s.free_addr + headerSize + size < SIZE_T_MOD →
        s.free_addr ≤ s'.free_addr) ∧
      (∀ x, getAllocated s.mem x = true →
        getAllocated s'.mem x = true ∧ getSize s'.mem x = getSize s.mem x) ∧
      (r ≠ none →
        s.free_addr + bumpPad s.free_addr + headerSize + size < SIZE_T_MOD →
        contained s') ∧
      (aligned16 s → aligned16 s') ∧
      (aligned16 s → ∀ q, r = some q → q % 16 = 0) := by
  obtain ⟨fs, as, hinvW⟩ := hinv
  by_cases hsz : size = 0
  · subst hsz
    refine ⟨none, s, ?_, ⟨fs, as, hinvW⟩, rfl, rfl, rfl, fun _ => le_refl _,
      fun x hx => ⟨hx, rfl⟩, ?_, fun h => h, ?_⟩
    · show malloc base s 0 = some (none, s)
      simp [malloc, init_noop base s hinits]
    · intro _ _; exact hcont
    · intro _ q hq; cases hq
  · have hchF := hinvW.1
    have hflF := hinvW.2.2.2.1
    have hndF : fs.Nodup := hinvW.2.2.1.of_append_left
    have hdomlt : ∀ a ∈ fs, a < s.end_addr + 1 := by
      intro a ha
      have hsome := chain_mem_isSome s.mem fs none s.free_list_head hchF a ha
      rw [Option.isSome_iff_exists] at hsome
      obtain ⟨h, hh⟩ := hsome
      have := hcont.1 a h hh
      have hfe := hcont.2
      unfold headerSize at this
      omega
    have hlen : fs.length ≤ s.end_addr + 1 := nodup_length_le fs _ hndF hdomlt
    have hfbeq := findBest_eq_loopSpec s.mem size fs (s.end_addr + 1) none
      s.free_list_head none hchF hflF hlen
    have hfresh : s.mem (s.free_addr + bumpPad s.free_addr) = none := by
      by_contra hc
      obtain ⟨h, hh⟩ := Option.ne_none_iff_exists'.mp hc
      have hle := hcont.1 _ h hh
      unfold headerSize at hle
      omega
    have hfreshNe : ∀ x, (s.mem x).isSome → x ≠ s.free_addr + bumpPad s.free_addr := by
      intro x hx hcon
      rw [hcon, hfresh] at hx
      cases hx
    cases hLS : loopSpec size none (sized s.mem fs) with
    | none =>
      rw [hLS] at hfbeq
      obtain ⟨r, s', heq, hinv', hstart, hend, hdata, hflh, hmono, hriff, hrsome, hrnone,
        hsizes, hszfa, hsome⟩ :=
        malloc_bump_preserves base size s fs as hinvW hinits hsz hfbeq hfresh
      refine ⟨r, s', heq, ⟨fs, _, hinv'⟩, hstart, hend, hdata, hmono, ?_, ?_, ?_, ?_⟩
      · intro x hx
        have hxne : x ≠ s.free_addr + bumpPad s.free_addr :=
          hfreshNe x (getAllocated_true_isSome s.mem x hx)
        obtain ⟨hsz', hfl'⟩ := hsizes x hxne
        exact ⟨by rw [hfl']; exact hx, hsz'⟩
      · intro hrne hnw
        obtain ⟨hreq, hfeq, hfle⟩ := hrsome hrne
        rw [Nat.mod_eq_of_lt hnw] at hfeq
        constructor
        · intro a h hmem'
          have hsome' : (s'.mem a).isSome := by rw [hmem']; rfl
          have hsz'' : getSize s'.mem a = h.size := by
            rw [getSize, getH, hmem']; rfl
          rcases (hsome a).mp hsome' with heqa | hold
          · have : h.size = size := by
              rw [← hsz'', heqa]; exact hszfa
            rw [heqa, hfeq]
            unfold headerSize at *
            omega
          · obtain ⟨h0, hh0⟩ := Option.isSome_iff_exists.mp hold
            have hane : a ≠ s.free_addr + bumpPad s.free_addr := hfreshNe a hold
            have hold2 := hcont.1 a h0 hh0
            have hsz0 : getSize s.mem a = h0.size := by
              rw [getSize, getH, hh0]; rfl
            have := (hsizes a hane).1
            rw [hsz'', hsz0] at this
            rw [hfeq]
            unfold headerSize at *
            omega
        · rw [hend]
          exact hfle
      · intro hal a hsome'
        rcases (hsome a).mp hsome' with heqa | hold
        · rw [heqa]
          have := bumpPad_aligns s.free_addr
          omega
        · exact hal a hold
      · intro hal q hq
        have hrne : r ≠ none := by rw [hq]; intro h; cases h
        obtain ⟨hreq, _, _⟩ := hrsome hrne
        rw [hq] at hreq
        injection hreq with hqe
        rw [hqe, HEADER_TO_BLOCK]
        have := bumpPad_aligns s.free_addr
        omega
    | some v =>
      obtain ⟨b, bs⟩ := v
      rw [hLS] at hfbeq
      have hchar := (loopSpec_char size (sized s.mem fs) none (by intro _ _ h; cases h)).2
        b bs hLS
      obtain ⟨hszle, hcase⟩ := hchar
      rcases hcase with ⟨habs, _⟩ | ⟨t1, t2, hsplitS, _, _, _⟩
      · cases habs
      · have hmemS : (b, bs) ∈ sized s.mem fs := by
          rw [hsplitS]
          exact List.mem_append_right _ (List.mem_cons_self _ t2)
        have hbfs : b ∈ fs := by
          simp only [sized, List.mem_map] at hmemS
          obtain ⟨a, ha, hae⟩ := hmemS
          injection hae with h1 h2
          subst h1
          exact ha
        obtain ⟨l1, l2, hsplit⟩ := List.append_of_mem hbfs
        obtain ⟨s', hb, hmb, heq, hinv', hfree, hstart, hend, hdata, hsizeEq, hflagNe,
          hflagB, hsome⟩ :=
          malloc_hit_preserves base size b bs s fs as l1 l2 hinvW hsplit hinits hsz hfbeq
      /- assemble -/
        refine ⟨some (HEADER_TO_BLOCK b), s', heq, ⟨_, _, hinv'⟩, hstart, hend, hdata,
          fun _ => le_of_eq hfree.symm, ?_, ?_, ?_, ?_⟩
        · intro x hx
          have hxb : x ≠ b := by
            intro hc
            subst hc
            have hfl := hinvW.2.2.2.1 x hbfs
            rw [hfl] at hx
            cases hx
          rw [hflagNe x hxb, hsizeEq x]
          exact ⟨hx, rfl⟩
        · intro _ _
          constructor
          · intro a h hmem'
            have hsome' : (s'.mem a).isSome := by rw [hmem']; rfl
            obtain ⟨h0, hh0⟩ := Option.isSome_iff_exists.mp ((hsome a).mp hsome')
            have hsz'' : getSize s'.mem a = h.size := by
              rw [getSize, getH, hmem']; rfl
            have hsz0 : getSize s.mem a = h0.size := by
              rw [getSize, getH, hh0]; rfl
            have hold2 := hcont.1 a h0 hh0
            have hx := hsizeEq a
            rw [hsz'', hsz0] at hx
            rw [hfree]
            omega
          · rw [hfree, hend]
            exact hcont.2
        · intro hal a hsome'
          exact hal a ((hsome a).mp hsome')
        · intro hal q hq
          injection hq with hqe
          have halb := hal b (by rw [hmb]; rfl)
          rw [← hqe, HEADER_TO_BLOCK]
          omega

theorem free_preserves_inv (p : Nat) (s : AllocState) (hinv : listInv s)
    (hflag : getAllocated s.mem (BLOCK_TO_HEADER p) = true) :
    ∃ s', free s (some p) = some s' ∧ listInv s' ∧
      s'.free_addr = s.free_addr ∧ s'.start_addr = s.start_addr ∧
      s'.end_addr = s.end_addr ∧ s'.data = s.data ∧
      (∀ x, (s'.mem x).isSome ↔ (s.mem x).isSome) ∧
      (∀ x, getSize s'.mem x = getSize s.mem x) ∧
      (∀ x, x ≠ BLOCK_TO_HEADER p → getAllocated s'.mem x = getAllocated s.mem x) ∧
      getAllocated s'.mem (BLOCK_TO_HEADER p) = false := by
  obtain ⟨fs, as, hinvW⟩ := hinv
  have hsome := getAllocated_true_isSome s.mem (BLOCK_TO_HEADER p) hflag
  have hdom := hinvW.2.2.2.2.2 (BLOCK_TO_HEADER p) hsome
  have hbas : BLOCK_TO_HEADER p ∈ as := by
    rcases hdom with h | h
    · have := hinvW.2.2.2.1 (BLOCK_TO_HEADER p) h
      rw [hflag] at this
      cases this
    · exact h
  obtain ⟨a1, a2, hsplit⟩ := List.append_of_mem hbas
  obtain ⟨s', hb, hmb, heq, hinv', hfree, hstart, hend, hdata, hflh, hsizeEq, hflagNe,
    hflagB, hsomeIff⟩ :=
    free_preserves p (BLOCK_TO_HEADER p) s fs as a1 a2 hinvW hsplit rfl
  exact ⟨s', heq, ⟨_, _, hinv'⟩, hfree, hstart, hend, hdata, hsomeIff, hsizeEq,
    hflagNe, hflagB⟩

theorem free_fatal (p : Nat) (s : AllocState)
    (hflag : getAllocated s.mem (BLOCK_TO_HEADER p) = false) :
    free s (some p) = none := by
  simp [free, hflag]

/-- `contained` is preserved whenever the domain, the sizes and the bump
cursor are. -/
theorem contained_of_same (s s' : AllocState)
    (hcont : contained s)
    (hfree : s'.free_addr = s.free_addr)
    (hend : s'.end_addr = s.end_addr)
    (hsomeIff : ∀ x, (s'.mem x).isSome ↔ (s.mem x).isSome)
    (hsizeEq : ∀ x, getSize s'.mem x = getSize s.mem x) :
    contained s' := by
  constructor
  · intro a h hmem'
    have hsome' : (s'.mem a).isSome := by rw [hmem']; rfl
    obtain ⟨h0, hh0⟩ := Option.isSome_iff_exists.mp ((hsomeIff a).mp hsome')
    have h1 : getSize s'.mem a = h.size := by rw [getSize, getH, hmem']; rfl
    have h2 : getSize s.mem a = h0.size := by rw [getSize, getH, hh0]; rfl
    have h3 := hcont.1 a h0 hh0
    have h4 := hsizeEq a
    rw [h1, h2] at h4
    rw [hfree]
    omega
  · rw [hfree, hend]
    exact hcont.2

/-- `aligned16` is preserved whenever the domain is. -/
theorem aligned_of_same (s s' : AllocState)
    (hal : aligned16 s)
    (hsomeIff : ∀ x, (s'.mem x).isSome ↔ (s.mem x).isSome) :
    aligned16 s' :=
  fun a ha => hal a ((hsomeIff a).mp ha)

/- ===================================================================
   Frame lemmas over arbitrary states.
   =================================================================== -/

theorem malloc_frame (base : Nat) (s : AllocState) (size : Nat) (r : Option Nat)
    (s' : AllocState) (h : malloc base s size = some (r, s')) :
    s'.start_addr = (init base s).start_addr ∧
    s'.end_addr = (init base s).end_addr ∧
    s'.data = (init base s).data := by
  simp only [malloc] at h
  repeat' split at h
  all_goals
    first
      | (injection h with h1
         injection h1 with h1 h2
         subst h2
         subst h1
         refine ⟨?_, ?_, ?_⟩ <;> simp [HEADER_TO_BLOCK])
      | cases h

theorem free_frame (s : AllocState) (ptr : Option Nat) (s' : AllocState)
    (h : free s ptr = some s') :
    s'.free_addr = s.free_addr ∧ s'.start_addr = s.start_addr ∧
    s'.end_addr = s.end_addr ∧ s'.data = s.data := by
  simp only [free] at h
  repeat' split at h
  all_goals
    first
      | (injection h with h1
         subst h1
         exact ⟨rfl, rfl, rfl, rfl⟩)
      | cases h

/-- Master preservation theorem over the public entry points: from an
initialized state satisfying the list and containment invariants, every
successful call keeps the list invariant, the region bounds, and payload
alignment. -/
theorem step_master (base : Nat) (s : AllocState) (op : Op) (r : Option Nat)
    (s' : AllocState)
    (hinits : s.start_addr ≠ 0)
    (hinv : listInv s)
    (hcont : contained s)
    (hstep : step base s op = some (r, s')) :
    listInv s' ∧ s'.start_addr = s.start_addr ∧ s'.end_addr = s.end_addr ∧
    (aligned16 s → aligned16 s') := by
  cases op with
  | alloc n =>
    obtain ⟨r0, s0, heq, hinv0, hst, hen, hdata, hmono, hkeeps, hcont0, halign, hresq⟩ :=
      malloc_preserves_inv base n s hinits hinv hcont
    simp only [step] at hstep
    rw [heq] at hstep
    injection hstep with h1
    injection h1 with h1 h2
    subst h2
    exact ⟨hinv0, hst, hen, halign⟩
  | dealloc p =>
    cases p with
    | none =>
      simp only [step, free, Option.map_some] at hstep
      injection hstep with h1
      injection h1 with h1 h2
      subst h2
      exact ⟨hinv, rfl, rfl, fun h => h⟩
    | some p0 =>
      cases hflag : getAllocated s.mem (BLOCK_TO_HEADER p0) with
      | false =>
        simp only [step, free_fatal p0 s hflag, Option.map_none] at hstep
        cases hstep
      | true =>
        obtain ⟨s0, heq, hinv0, hfr, hst, hen, hdata, hsomeIff, hsz, hflNe, hflB⟩ :=
          free_preserves_inv p0 s hinv hflag
        simp only [step, heq, Option.map_some] at hstep
        injection hstep with h1
        injection h1 with h1 h2
        subst h2
        exact ⟨hinv0, hst, hen, fun ha => aligned_of_same s s0 ha hsomeIff⟩
  | allocZeroed n k =>
    obtain ⟨r0, s0, heq, hinv0, hst, hen, hdata, hmono, hkeeps, hcont0, halign, hresq⟩ :=
      malloc_preserves_inv base ((n * k) % SIZE_T_MOD) s hinits hinv hcont
    cases r0 with
    | none =>
      simp only [step, calloc, heq] at hstep
      injection hstep with h1
      injection h1 with h1 h2
      subst h2
      exact ⟨hinv0, hst, hen, halign⟩
    | some q =>
      simp only [step, calloc, heq] at hstep
      injection hstep with h1
      injection h1 with h1 h2
      subst h2
      obtain ⟨fs, as, hW⟩ := hinv0
      exact ⟨⟨fs, as, hW⟩, hst, hen, fun ha => halign ha⟩
  | resize p n =>
    cases p with
    | none =>
      obtain ⟨r0, s0, heq, hinv0, hst, hen, hdata, hmono, hkeeps, hcont0, halign, hresq⟩ :=
        malloc_preserves_inv base n s hinits hinv hcont
      simp only [step, realloc] at hstep
      rw [heq] at hstep
      injection hstep with h1
      injection h1 with h1 h2
      subst h2
      exact ⟨hinv0, hst, hen, halign⟩
    | some q =>
      simp only [step, realloc] at hstep
      by_cases hn : n = 0
      · rw [if_pos hn] at hstep
        rcases hf : free s (some q) with _ | s0
        · rw [hf] at hstep
          cases hstep
        · rw [hf] at hstep
          injection hstep with h1
          injection h1 with h1 h2
          subst h2
          cases hflag : getAllocated s.mem (BLOCK_TO_HEADER q) with
          | false =>
            rw [free_fatal q s hflag] at hf
            cases hf
          | true =>
            obtain ⟨s1, heq, hinv1, hfr, hst, hen, hdata, hsomeIff, hsz, hflNe, hflB⟩ :=
              free_preserves_inv q s hinv hflag
            rw [heq] at hf
            injection hf with h1
            subst h1
            exact ⟨hinv1, hst, hen, fun ha => aligned_of_same s _ ha hsomeIff⟩
      · rw [if_neg hn] at hstep
        by_cases hle : n ≤ getSize s.mem (BLOCK_TO_HEADER q)
        · rw [if_pos hle] at hstep
          injection hstep with h1
          injection h1 with h1 h2
          subst h2
          exact ⟨hinv, rfl, rfl, fun h => h⟩
        · rw [if_neg hle] at hstep
          obtain ⟨r0, s1, heq, hinv1, hst1, hen1, hdata1, hmono1, hkeeps1, hcont1,
            halign1, hresq1⟩ :=
            malloc_preserves_inv base n s hinits hinv hcont
          cases r0 with
          | none =>
            simp only [heq] at hstep
            injection hstep with h1
            injection h1 with h1 h2
            subst h2
            exact ⟨hinv1, hst1, hen1, halign1⟩
          | some np =>
            simp only [heq] at hstep
            rcases hf : free
                { s1 with data := memcpy s1.data np q (getSize s1.mem (BLOCK_TO_HEADER q)) }
                (some q) with _ | s3
            · rw [hf] at hstep
              cases hstep
            · rw [hf] at hstep
              injection hstep with h1
              injection h1 with h1 h2
              subst h2
              have hinv2 : listInv
                  { s1 with
                    data := memcpy s1.data np q (getSize s1.mem (BLOCK_TO_HEADER q)) } := by
                obtain ⟨fs, as, hW⟩ := hinv1
                exact ⟨fs, as, hW⟩
              cases hflag2 : getAllocated s1.mem (BLOCK_TO_HEADER q) with
              | false =>
                have hfat := free_fatal q
                  { s1 with
                    data := memcpy s1.data np q (getSize s1.mem (BLOCK_TO_HEADER q)) } hflag2
                rw [hfat] at hf
                cases hf
              | true =>
                obtain ⟨s4, heq4, hinv4, hfr4, hst4, hen4, hdata4, hsomeIff4, hsz4,
                  hflNe4, hflB4⟩ :=
                  free_preserves_inv q _ hinv2 hflag2
                rw [heq4] at hf
                injection hf with h1
                subst h1
                refine ⟨hinv4, ?_, ?_, ?_⟩
                · rw [hst4]; exact hst1
                · rw [hen4]; exact hen1
                · intro ha
                  exact aligned_of_same _ _ (halign1 ha) hsomeIff4

/-- Once the region is initialized, no public call ever changes `start_addr`
or `end_addr` again. -/
theorem step_frame_init (base : Nat) (s : AllocState) (op : Op) (r : Option Nat)
    (s' : AllocState)
    (hinits : s.start_addr ≠ 0)
    (hstep : step base s op = some (r, s')) :
    s'.start_addr = s.start_addr ∧ s'.end_addr = s.end_addr := by
  have hni := init_noop base s hinits
  cases op with
  | alloc n =>
    have h := malloc_frame base s n r s' hstep
    rw [hni] at h
    exact ⟨h.1, h.2.1⟩
  | dealloc p =>
    simp only [step] at hstep
    rcases hf : free s p with _ | s0
    · rw [hf] at hstep; cases hstep
    · rw [hf] at hstep
      injection hstep with h1
      injection h1 with h1 h2
      subst h2
      exact ⟨(free_frame s p s0 hf).2.1, (free_frame s p s0 hf).2.2.1⟩
  | allocZeroed n k =>
    simp only [step, calloc] at hstep
    rcases hm : malloc base s ((n * k) % SIZE_T_MOD) with _ | v
    · rw [hm] at hstep; cases hstep
    · rw [hm] at hstep
      obtain ⟨p0, s1⟩ := v
      have h := malloc_frame base s _ p0 s1 hm
      rw [hni] at h
      cases p0 with
      | none =>
        injection hstep with h1
        injection h1 with h1 h2
        subst h2
        exact ⟨h.1, h.2.1⟩
      | some q =>
        injection hstep with h1
        injection h1 with h1 h2
        subst h2
        exact ⟨h.1, h.2.1⟩
  | resize p n =>
    simp only [step, realloc] at hstep
    repeat' split at hstep
    · have h := malloc_frame base s n r s' hstep
      rw [hni] at h
      exact ⟨h.1, h.2.1⟩
    · cases hstep
    · rename_i s0 hf
      injection hstep with h1
      injection h1 with h1 h2
      subst h2
      exact ⟨(free_frame s _ s0 hf).2.1, (free_frame s _ s0 hf).2.2.1⟩
    · injection hstep with h1
      injection h1 with h1 h2
      subst h2
      exact ⟨rfl, rfl⟩
    · cases hstep
    · rename_i s1 hm
      injection hstep with h1
      injection h1 with h1 h2
      subst h2
      have h := malloc_frame base s n none s1 hm
      rw [hni] at h
      exact ⟨h.1, h.2.1⟩
    · cases hstep
    · injection hstep with h1
      injection h1 with h1 h2
      subst h2
      rename malloc base s n = some _ => hm
      rename free _ _ = some _ => hf
      have hA := malloc_frame _ _ _ _ _ hm
      rw [hni] at hA
      have hB := free_frame _ _ _ hf
      exact ⟨hB.2.1.trans hA.1, hB.2.2.1.trans hA.2.1⟩

/-- On the hit path (best-fit search found a block), `malloc` leaves the bump
cursor, the region bounds and the payload bytes unchanged and hands out the
found block. -/
theorem malloc_hit_frame (base size b bs : Nat) (s : AllocState) (r : Option Nat)
    (s' : AllocState)
    (hinits : s.start_addr ≠ 0)
    (hsz : size ≠ 0)
    (hfb : findBest s.mem size (s.end_addr + 1) s.free_list_head none =
      some (some (b, bs)))
    (hML : malloc base s size = some (r, s')) :
    r = some (HEADER_TO_BLOCK b) ∧ s'.free_addr = s.free_addr ∧
    s'.start_addr = s.start_addr ∧ s'.end_addr = s.end_addr ∧ s'.data = s.data := by
  simp only [malloc, init_noop base s hinits, if_neg hsz, hfb] at hML
  injection hML with h1
  injection h1 with h1 h2
  subst h2
  subst h1
  refine ⟨rfl, ?_, ?_, ?_, ?_⟩ <;> (repeat' split) <;> rfl

theorem sized_map_fst (m : Mem) (xs : List Nat) : (sized m xs).map Prod.fst = xs := by
  induction xs with
  | nil => rfl
  | cons a t ih =>
    unfold sized at ih ⊢
    simp only [List.map_cons]
    exact congrArg (List.cons a) ih

theorem sized_mem_snd (m : Mem) (xs : List Nat) (p : Nat × Nat)
    (hp : p ∈ sized m xs) : p.2 = getSize m p.1 := by
  unfold sized at hp
  obtain ⟨a, ha, hap⟩ := List.mem_map.mp hp
  subst hap
  rfl

theorem sized_mem (m : Mem) (xs : List Nat) (c : Nat) (hc : c ∈ xs) :
    (c, getSize m c) ∈ sized m xs := by
  unfold sized
  exact List.mem_map_of_mem _ hc

/- ===================================================================
   Invariants of the concrete states.
   =================================================================== -/

theorem w1_invW : listInvWith w1 [] [16] := by
  refine ⟨rfl, ⟨rfl, ⟨none, none, 5, true⟩, rfl, rfl, rfl⟩, by decide, ?_, ?_, ?_⟩
  · intro a ha; cases ha
  · intro a ha
    rcases List.mem_cons.mp ha with h | h
    · subst h; rfl
    · cases h
  · intro a ha
    by_cases h : a = 16
    · right; subst h; exact List.mem_cons_self 16 []
    · exfalso
      simp only [w1, h, if_false] at ha
      cases ha

theorem w1_inv : listInv w1 := ⟨[], [16], w1_invW⟩

theorem w2_invW : listInvWith w2 [16] [] := by
  refine ⟨⟨rfl, ⟨none, none, 20, false⟩, rfl, rfl, rfl⟩, rfl, by decide, ?_, ?_, ?_⟩
  · intro a ha
    rcases List.mem_cons.mp ha with h | h
    · subst h; rfl
    · cases h
  · intro a ha; cases ha
  · intro a ha
    by_cases h : a = 16
    · left; subst h; exact List.mem_cons_self 16 []
    · exfalso
      simp only [w2, h, if_false] at ha
      cases ha

theorem w2_inv : listInv w2 := ⟨[16], [], w2_invW⟩

theorem w2_cont : contained w2 := by
  constructor
  · intro a h hm
    by_cases hx : a = 16
    · subst hx
      simp only [w2, if_pos rfl] at hm
      injection hm with hm
      subst hm
      decide
    · simp only [w2, hx, if_false] at hm
      cases hm
  · decide

theorem w2_al : aligned16 w2 := by
  intro a ha
  by_cases hx : a = 16
  · subst hx; decide
  · exfalso
    simp only [w2, hx, if_false] at ha
    cases ha

theorem w3_invW : listInvWith w3 [] [16] := by
  refine ⟨rfl, ⟨rfl, ⟨none, none, 5, true⟩, rfl, rfl, rfl⟩, by decide, ?_, ?_, ?_⟩
  · intro a ha; cases ha
  · intro a ha
    rcases List.mem_cons.mp ha with h | h
    · subst h; rfl
    · cases h
  · intro a ha
    by_cases h : a = 16
    · right; subst h; exact List.mem_cons_self 16 []
    · exfalso
      simp only [w3, h, if_false] at ha
      cases ha

theorem w3_inv : listInv w3 := ⟨[], [16], w3_invW⟩

theorem w3_cont : contained w3 := by
  constructor
  · intro a h hm
    by_cases hx : a = 16
    · subst hx
      simp only [w3, if_pos rfl] at hm
      injection hm with hm
      subst hm
      decide
    · simp only [w3, hx, if_false] at hm
      cases hm
  · decide

theorem w1_cont : contained w1 := by
  constructor
  · intro a h hm
    by_cases hx : a = 16
    · subst hx
      simp only [w1, if_pos rfl] at hm
      injection hm with hm
      subst hm
      decide
    · simp only [w1, hx, if_false] at hm
      cases hm
  · decide

/- ===================================================================
   The claims.
   =================================================================== -/

/-- C1.  For every call `allocate(size)` with `size > 0` from an initialized
invariant state whose free list holds at least one block of stored size at
least `size`, `allocate` returns the payload of the first-encountered
smallest qualifying free block: the chosen block `b` is on the free list,
qualifies (`size ≤ b.size`), is no larger than any qualifying block, is
strictly smaller than every qualifying block encountered before it (so the
earlier block wins ties), and it is handed out at its stored size, which is
not reduced to the request. -/
theorem malloc_selects_best_fit (base size : Nat) (s : AllocState) (fs as : List Nat)
    (hinv : listInvWith s fs as)
    (hcont : contained s)
    (hinits : s.start_addr ≠ 0)
    (hsz : size ≠ 0)
    (hqual : ∃ c ∈ fs, size ≤ getSize s.mem c) :
    ∃ b s', malloc base s size = some (some (HEADER_TO_BLOCK b), s') ∧
      b ∈ fs ∧ size ≤ getSize s.mem b ∧
      (∀ c ∈ fs, size ≤ getSize s.mem c → getSize s.mem b ≤ getSize s.mem c) ∧
      (∃ l1 l2, fs = l1 ++ b :: l2 ∧
        ∀ c ∈ l1, size ≤ getSize s.mem c → getSize s.mem b < getSize s.mem c) ∧
      getSize s'.mem b = getSize s.mem b := by
  have hchF := hinv.1
  have hflF := hinv.2.2.2.1
  have hndF : fs.Nodup := hinv.2.2.1.of_append_left
  have hlt : ∀ a ∈ fs, a < s.end_addr + 1 := by
    intro a ha
    have hsome := chain_mem_isSome s.mem fs none s.free_list_head hchF a ha
    rw [Option.isSome_iff_exists] at hsome
    obtain ⟨h, hh⟩ := hsome
    have h1 := hcont.1 a h hh
    have h2 := hcont.2
    unfold headerSize at h1
    omega
  have hlen := nodup_length_le fs (s.end_addr + 1) hndF hlt
  have hfb := findBest_eq_loopSpec s.mem size fs (s.end_addr + 1) none s.free_list_head
    none hchF hflF hlen
  have hvac : ∀ a0 s0, (none : Option (Nat × Nat)) = some (a0, s0) → size < s0 := by
    intro a0 s0 h
    cases h
  rcases hres : loopSpec size none (sized s.mem fs) with _ | ⟨b, bs⟩
  · exfalso
    obtain ⟨c, hc, hcq⟩ := hqual
    have hnone := ((loopSpec_char size (sized s.mem fs) none hvac).1 hres).2
    have := hnone _ (sized_mem s.mem fs c hc)
    simp only at this
    omega
  · obtain ⟨hsize_le, hcases⟩ :=
      (loopSpec_char size (sized s.mem fs) none hvac).2 b bs hres
    rcases hcases with ⟨hacc, -⟩ | ⟨t1, t2, hsplitS, -, hpre, hmin⟩
    · cases hacc
    · have hfs_eq : fs = t1.map Prod.fst ++ b :: t2.map Prod.fst := by
        have h0 : (sized s.mem fs).map Prod.fst = fs := sized_map_fst s.mem fs
        rw [hsplitS] at h0
        simpa using h0.symm
      have hbbs : (b, bs) ∈ sized s.mem fs := by
        rw [hsplitS]
        exact List.mem_append_right _ (List.mem_cons_self _ _)
      have hbs_eq : bs = getSize s.mem b := sized_mem_snd s.mem fs (b, bs) hbbs
      rw [hres] at hfb
      obtain ⟨s', hb, hmb, heqML, hinv2, hfr, hst, hen, hdata, hszAll, hflNe, hflB,
        hsomeIff⟩ :=
        malloc_hit_preserves base size b bs s fs as (t1.map Prod.fst) (t2.map Prod.fst)
          hinv hfs_eq hinits hsz hfb
      refine ⟨b, s', heqML, ?_, ?_, ?_, ⟨t1.map Prod.fst, t2.map Prod.fst, hfs_eq, ?_⟩,
        hszAll b⟩
      · rw [hfs_eq]
        exact List.mem_append_right _ (List.mem_cons_self _ _)
      · rw [← hbs_eq]
        exact hsize_le
      · intro c hc hq
        have := hmin _ (sized_mem s.mem fs c hc) (by simpa using hq)
        rw [← hbs_eq]
        simpa using this
      · intro c hc hq
        obtain ⟨p, hp, hpc⟩ := List.mem_map.mp hc
        have hp2 : p.2 = getSize s.mem p.1 := by
          refine sized_mem_snd s.mem fs p ?_
          rw [hsplitS]
          exact List.mem_append_left _ hp
        have := hpre p hp (by rw [hp2, hpc]; exact hq)
        rw [hp2, hpc] at this
        rw [← hbs_eq]
        exact this

theorem malloc_selects_best_fit_witness :
    ∃ b s', malloc 16 w2 7 = some (some (HEADER_TO_BLOCK b), s') ∧
      b ∈ [16] ∧ 7 ≤ getSize w2.mem b ∧
      (∀ c ∈ [16], 7 ≤ getSize w2.mem c → getSize w2.mem b ≤ getSize w2.mem c) ∧
      (∃ l1 l2, [16] = l1 ++ b :: l2 ∧
        ∀ c ∈ l1, 7 ≤ getSize w2.mem c → getSize w2.mem b < getSize w2.mem c) ∧
      getSize s'.mem b = getSize w2.mem b :=
  malloc_selects_best_fit 16 7 w2 [16] [] w2_invW w2_cont (by decide) (by decide)
    ⟨16, List.mem_cons_self 16 [], by decide⟩

/-- C2.  Contrary to the spec's mandated pre-check ordering, on the bump
path with an out-of-bounds block the code writes the new header and links it
into the allocated list BEFORE the bounds check: from the fresh region
`[16, 100]`, `allocate(200)` returns null yet leaves the out-of-region
header at 16 written (size 200, allocated) and reachable from the
allocated-list head, and the bump cursor keeps its padding advance. -/
theorem bump_overflow_links_header :
    ∃ s', malloc 16 c2state 200 = some (none, s') ∧
      s'.alloc_list_head = some 16 ∧
      s'.mem 16 = some ⟨none, none, 200, true⟩ ∧
      s'.free_addr = 16 ∧
      c2state.end_addr < HEADER_TO_BLOCK 16 + 200 ∧
      c2state.alloc_list_head = none ∧ c2state.mem 16 = none :=
  ⟨_, rfl, rfl, rfl, rfl, by decide, rfl, rfl⟩

/-- C3 (counterexample).  From a state satisfying the list-structure
invariant whose bump cursor aliases the linked header at 48 — the shape a
failed bump-path allocation leaves behind — `allocate(200)` produces a
state violating the invariant: the allocated-list head's header gets itself
as predecessor instead of a null `prev`, so no well-formed allocated list
exists. -/
theorem alloc_breaks_list_structure_on_aliased_cursor :
    listInv c3state ∧
    ∃ s', malloc 16 c3state 200 = some (none, s') ∧
      s'.alloc_list_head = some 48 ∧
      getPrev s'.mem 48 = some 48 ∧
      ¬ listInv s' := by
  constructor
  · refine ⟨[], [48], rfl, ⟨rfl, ⟨none, none, 5, true⟩, rfl, rfl, rfl⟩, by decide,
      ?_, ?_, ?_⟩
    · intro a ha; cases ha
    · intro a ha
      rcases List.mem_cons.mp ha with h | h
      · subst h; rfl
      · cases h
    · intro a ha
      by_cases h : a = 48
      · right; subst h; exact List.mem_cons_self 48 []
      · exfalso
        simp only [c3state, h, if_false] at ha
        cases ha
  · refine ⟨_, rfl, rfl, rfl, ?_⟩
    rintro ⟨fs, as, -, hchA, -, -, -, -⟩
    cases as with
    | nil =>
      exact Option.noConfusion (hchA : (some 48 : Option Nat) = none)
    | cons a rest =>
      obtain ⟨hhd, h, hmem, hprev, -⟩ := hchA
      have ha : a = 48 := by
        have h48 := (hhd : (some 48 : Option Nat) = some a)
        injection h48 with h48
        exact h48.symm
      subst ha
      have hm48 := hmem.symm.trans (rfl : _ = some (⟨some 48, some 48, 200, true⟩ : Header))
      injection hm48 with hm48
      rw [hm48] at hprev
      exact Option.noConfusion (hprev : (some 48 : Option Nat) = none)

/-- C3 (amended).  Every public call made from an initialized state that
satisfies the list-structure invariant AND the containment invariant (spec
§3 invariant 3, which rules out a bump cursor aliasing a linked header)
preserves the list-structure invariant: each header sits on exactly one of
the two symmetric doubly-linked lists, with its `allocated` flag matching
the list it is on. -/
theorem step_preserves_list_structure (base : Nat) (s : AllocState) (op : Op)
    (r : Option Nat) (s' : AllocState)
    (hinits : s.start_addr ≠ 0)
    (hinv : listInv s)
    (hcont : contained s)
    (hstep : step base s op = some (r, s')) :
    listInv s' :=
  (step_master base s op r s' hinits hinv hcont hstep).1

theorem step_preserves_list_structure_witness :
    ∃ r s', step 16 w0 (Op.alloc 5) = some (r, s') ∧ listInv s' :=
  ⟨_, _, rfl,
    step_preserves_list_structure 16 w0 (Op.alloc 5) _ _ (by decide)
      ⟨[], [], rfl, rfl, by decide, fun a ha => absurd ha (List.not_mem_nil a),
        fun a ha => absurd ha (List.not_mem_nil a),
        fun a ha => Bool.noConfusion ha⟩
      ⟨fun a h hm => Option.noConfusion hm, by decide⟩
      rfl⟩

/-- C4.  Every non-null payload returned by `allocate` or `allocateZeroed`
from an initialized, invariant-satisfying, alignment-satisfying state is
16-byte aligned; moreover every public call preserves the payload-alignment
invariant of the header store (which is why hit-path reuse hands out an
aligned block: every reused block was created aligned). -/
theorem alloc_results_are_16_byte_aligned (base : Nat) (s : AllocState)
    (hinits : s.start_addr ≠ 0)
    (hinv : listInv s)
    (hcont : contained s)
    (hal : aligned16 s) :
    (∀ n q s', malloc base s n = some (some q, s') → q % 16 = 0) ∧
    (∀ n k q s', calloc base s n k = some (some q, s') → q % 16 = 0) ∧
    (∀ op r s', step base s op = some (r, s') → aligned16 s') := by
  refine ⟨?_, ?_, ?_⟩
  · intro n q s' h
    obtain ⟨r0, s0, heq, -, -, -, -, -, -, -, -, hresq⟩ :=
      malloc_preserves_inv base n s hinits hinv hcont
    rw [heq] at h
    injection h with h1
    injection h1 with h1 h2
    exact hresq hal q h1
  · intro n k q s' h
    obtain ⟨r0, s0, heq, -, -, -, -, -, -, -, -, hresq⟩ :=
      malloc_preserves_inv base ((n * k) % SIZE_T_MOD) s hinits hinv hcont
    cases r0 with
    | none =>
      simp only [calloc, heq] at h
      injection h with h1
      injection h1 with h1 h2
      cases h1
    | some q0 =>
      simp only [calloc, heq] at h
      injection h with h1
      injection h1 with h1 h2
      have hq : q0 = q := by injection h1
      exact hresq hal q (by rw [← hq])
  · intro op r s' h
    exact (step_master base s op r s' hinits hinv hcont h).2.2.2 hal

theorem alloc_results_are_16_byte_aligned_witness : 48 % 16 = 0 :=
  (alloc_results_are_16_byte_aligned 16 w2 (by decide) w2_inv w2_cont w2_al).1
    7 48 _ rfl

/-- C5.  `deallocate(null)` is a no-op; `deallocate(p)` with `p`'s header
not allocated is fatal (double-free); otherwise `deallocate(p)` unlinks the
header from the allocated list, pushes it onto the head of the free list,
clears its allocated flag, keeps its stored size unchanged, and leaves the
payload bytes alone. -/
theorem free_deallocate_spec (s : AllocState) :
    free s none = some s ∧
    (∀ p, getAllocated s.mem (BLOCK_TO_HEADER p) = false → free s (some p) = none) ∧
    (∀ p fs as a1 a2, listInvWith s fs as → as = a1 ++ BLOCK_TO_HEADER p :: a2 →
      ∃ s', free s (some p) = some s' ∧
        s'.free_list_head = some (BLOCK_TO_HEADER p) ∧
        chain s'.mem none (some (BLOCK_TO_HEADER p)) (BLOCK_TO_HEADER p :: fs) ∧
        chain s'.mem none s'.alloc_list_head (a1 ++ a2) ∧
        getAllocated s'.mem (BLOCK_TO_HEADER p) = false ∧
        getSize s'.mem (BLOCK_TO_HEADER p) = getSize s.mem (BLOCK_TO_HEADER p) ∧
        s'.data = s.data) := by
  refine ⟨rfl, ?_, ?_⟩
  · intro p hflag
    exact free_fatal p s hflag
  · intro p fs as a1 a2 hinv hsplit
    obtain ⟨s', hb, hmb, heq, hinv2, hfr, hst, hen, hdata, hflh, hszAll, hflNe, hflB,
      hsomeIff⟩ :=
      free_preserves p (BLOCK_TO_HEADER p) s fs as a1 a2 hinv hsplit rfl
    refine ⟨s', heq, hflh, ?_, hinv2.2.1, hflB, hszAll (BLOCK_TO_HEADER p), hdata⟩
    have hch := hinv2.1
    rw [hflh] at hch
    exact hch

theorem free_deallocate_spec_witness :
    ∃ s', free w1 (some 48) = some s' ∧
      s'.free_list_head = some (BLOCK_TO_HEADER 48) ∧
      chain s'.mem none (some (BLOCK_TO_HEADER 48)) (BLOCK_TO_HEADER 48 :: []) ∧
      chain s'.mem none s'.alloc_list_head ([] ++ []) ∧
      getAllocated s'.mem (BLOCK_TO_HEADER 48) = false ∧
      getSize s'.mem (BLOCK_TO_HEADER 48) = getSize w1.mem (BLOCK_TO_HEADER 48) ∧
      s'.data = w1.data :=
  (free_deallocate_spec w1).2.2 48 [] [16] [] [] w1_invW rfl

/-- C6.  `resize` tests its four cases in order: null pointer behaves as
`allocate`; size 0 deallocates and returns null; a request within the
stored size returns the pointer itself with the state untouched; a growing
request allocates a new block and, when that succeeds, copies the first
`h.size` payload bytes, deallocates the original, and returns the new
payload. -/
theorem realloc_four_cases (base : Nat) (s : AllocState) :
    (∀ k, realloc base s none k = malloc base s k) ∧
    (∀ p s1, free s (some p) = some s1 → realloc base s (some p) 0 = some (none, s1)) ∧
    (∀ p k, k ≠ 0 → k ≤ getSize s.mem (BLOCK_TO_HEADER p) →
      realloc base s (some p) k = some (some p, s)) ∧
    (∀ p k q s1, s.start_addr ≠ 0 → listInv s → contained s →
      getSize s.mem (BLOCK_TO_HEADER p) < k →
      getAllocated s.mem (BLOCK_TO_HEADER p) = true →
      malloc base s k = some (some q, s1) →
      ∃ s', realloc base s (some p) k = some (some q, s') ∧
        (∀ i < getSize s.mem (BLOCK_TO_HEADER p), s'.data (q + i) = s.data (p + i)) ∧
        getAllocated s'.mem (BLOCK_TO_HEADER p) = false ∧
        listInv s') := by
  refine ⟨fun k => rfl, ?_, ?_, ?_⟩
  · intro p s1 hf
    simp [realloc, hf]
  · intro p k hk0 hkle
    simp [realloc, hk0, if_pos hkle]
  · intro p k q s1 hinits hinv hcont hk hflag hml
    have hk0 : k ≠ 0 := by omega
    obtain ⟨r0, s0, heq, hinv1, hst1, hen1, hdata1, hmono1, hkeeps1, hcont1, halign1,
      hresq1⟩ :=
      malloc_preserves_inv base k s hinits hinv hcont
    rw [heq] at hml
    injection hml with h1
    injection h1 with h1 h2
    subst h2
    subst h1
    have hfb1 := hkeeps1 (BLOCK_TO_HEADER p) hflag
    have hinv2 : listInv
        { s0 with data := memcpy s0.data q p (getSize s0.mem (BLOCK_TO_HEADER p)) } := by
      obtain ⟨fs, as, hW⟩ := hinv1
      exact ⟨fs, as, hW⟩
    obtain ⟨s3, heq3, hinv3, hfr3, hst3, hen3, hdata3, hsomeIff3, hsz3, hflNe3, hflB3⟩ :=
      free_preserves_inv p _ hinv2 hfb1.1
    refine ⟨s3, ?_, ?_, hflB3, hinv3⟩
    · simp only [realloc, if_neg hk0, if_neg (not_le.mpr hk), heq, heq3]
    · intro i hi
      rw [hdata3]
      show memcpy s0.data q p (getSize s0.mem (BLOCK_TO_HEADER p)) (q + i) = s.data (p + i)
      rw [hfb1.2]
      simp only [memcpy]
      rw [if_pos ⟨by omega, by omega⟩]
      rw [hdata1]
      congr 1
      omega

theorem realloc_four_cases_witness :
    realloc 16 w0 none 5 = malloc 16 w0 5 ∧
    realloc 16 w1 (some 48) 3 = some (some 48, w1) :=
  ⟨(realloc_four_cases 16 w0).1 5,
   (realloc_four_cases 16 w1).2.2.1 48 3 (by decide) (by decide)⟩

/-- C7.  In `resize`'s grow case, when the inner `allocate` returns null,
`resize` returns null without deallocating the original block: the original
header keeps its allocated flag and stored size, stays on the allocated
list, and the payload bytes are untouched. -/
theorem realloc_grow_failure_leaves_original_intact (base k p : Nat)
    (s s1 : AllocState)
    (hinits : s.start_addr ≠ 0)
    (hinv : listInv s)
    (hcont : contained s)
    (hflag : getAllocated s.mem (BLOCK_TO_HEADER p) = true)
    (hk : getSize s.mem (BLOCK_TO_HEADER p) < k)
    (hml : malloc base s k = some (none, s1)) :
    realloc base s (some p) k = some (none, s1) ∧
    getAllocated s1.mem (BLOCK_TO_HEADER p) = true ∧
    getSize s1.mem (BLOCK_TO_HEADER p) = getSize s.mem (BLOCK_TO_HEADER p) ∧
    s1.data = s.data ∧
    (∃ as', chain s1.mem none s1.alloc_list_head as' ∧ BLOCK_TO_HEADER p ∈ as') := by
  have hk0 : k ≠ 0 := by omega
  obtain ⟨r0, s0, heq, hinv1, hst1, hen1, hdata1, hmono1, hkeeps1, hcont1, halign1,
    hresq1⟩ :=
    malloc_preserves_inv base k s hinits hinv hcont
  rw [heq] at hml
  injection hml with h1
  injection h1 with h1 h2
  subst h2
  subst h1
  have hfb1 := hkeeps1 (BLOCK_TO_HEADER p) hflag
  refine ⟨?_, hfb1.1, hfb1.2, hdata1, ?_⟩
  · simp only [realloc, if_neg hk0, if_neg (not_le.mpr hk), heq]
  · obtain ⟨fs1, as1, hW⟩ := hinv1
    have hsome : (s0.mem (BLOCK_TO_HEADER p)).isSome :=
      getAllocated_true_isSome s0.mem (BLOCK_TO_HEADER p) hfb1.1
    rcases hW.2.2.2.2.2 _ hsome with hmem | hmem
    · exfalso
      have hcontra := hW.2.2.2.1 _ hmem
      rw [hfb1.1] at hcontra
      cases hcontra
    · exact ⟨as1, hW.2.1, hmem⟩

theorem realloc_grow_failure_leaves_original_intact_witness :
    ∃ s1, realloc 16 w3 (some 48) 100 = some (none, s1) ∧
      getAllocated s1.mem (BLOCK_TO_HEADER 48) = true ∧
      getSize s1.mem (BLOCK_TO_HEADER 48) = getSize w3.mem (BLOCK_TO_HEADER 48) ∧
      s1.data = w3.data ∧
      (∃ as', chain s1.mem none s1.alloc_list_head as' ∧ BLOCK_TO_HEADER 48 ∈ as') :=
  ⟨_, realloc_grow_failure_leaves_original_intact 16 100 48 w3 _ (by decide) w3_inv
    w3_cont (by decide) (by decide) rfl⟩

/-- C8.  `allocateZeroed(count, elemSize)` computes the unchecked wrapping
product `total = count * elemSize mod 2^64` and calls `allocate(total)`:
whenever the product wraps or multiplies to 0 it returns null (because
`allocate(0)` returns null), and a non-null result has its first `total`
bytes zero-filled. -/
theorem calloc_wraps_and_zeroes (base : Nat) (s : AllocState) :
    (∀ n k, (n * k) % SIZE_T_MOD = 0 → calloc base s n k = some (none, init base s)) ∧
    (∀ n k q s', calloc base s n k = some (some q, s') →
      ∀ i < (n * k) % SIZE_T_MOD, s'.data (q + i) = 0) := by
  constructor
  · intro n k htot
    have hm0 : malloc base s ((n * k) % SIZE_T_MOD) = some (none, init base s) := by
      rw [htot]
      rfl
    simp only [calloc, hm0]
  · intro n k q s' h i hi
    rcases hm : malloc base s ((n * k) % SIZE_T_MOD) with _ | v
    · simp only [calloc, hm] at h
      cases h
    · obtain ⟨r0, s0⟩ := v
      cases r0 with
      | none =>
        simp only [calloc, hm] at h
        injection h with h1
        injection h1 with h1 h2
        cases h1
      | some q0 =>
        simp only [calloc, hm] at h
        injection h with h1
        injection h1 with h1 h2
        subst h2
        have hq : q0 = q := by injection h1
        subst hq
        show memset0 s0.data q0 ((n * k) % SIZE_T_MOD) (q0 + i) = 0
        simp only [memset0]
        rw [if_pos ⟨by omega, by omega⟩]

theorem calloc_wraps_and_zeroes_witness :
    calloc 16 w0 4294967296 4294967296 = some (none, init 16 w0) ∧
    (∃ s', calloc 16 w0 3 5 = some (some 48, s') ∧ s'.data (48 + 7) = 0) :=
  ⟨(calloc_wraps_and_zeroes 16 w0).1 4294967296 4294967296 (by decide),
   ⟨_, rfl, (calloc_wraps_and_zeroes 16 w0).2 3 5 48 _ rfl 7 (by decide)⟩⟩

/-- C9.  Refuting the claimed bump-cursor monotonicity: bf-alloc.c line 264
computes `new_free_addr` as a 64-bit `size_t` sum, which wraps.  From the
initialized region `[16, 1000]` with the cursor at 100, the request
`2^64 - 144` wraps `new_free_addr` to 0, passes the `> end` bound check,
so `allocate` returns the non-null payload 144 and assigns the bump cursor
0 — strictly below its previous value 100, on arguments the claim
explicitly includes. -/
theorem bump_cursor_retreats_on_wrapping_request :
    c9state.free_addr = 100 ∧
    ∃ s', malloc 16 c9state (2 ^ 64 - 144) = some (some 144, s') ∧
      s'.free_addr = 0 ∧ s'.free_addr < c9state.free_addr ∧
      run 16 c9state [Op.alloc (2 ^ 64 - 144)] = some s' :=
  ⟨rfl, _, rfl, rfl, by decide, rfl⟩

/-- C10.  Frame effects: after initialization, `init` is a no-op (start and
end are written exactly once); `deallocate` never changes the bump cursor or
the region bounds; hit-path `allocate` leaves the cursor and bounds
unchanged; shrinking `resize` returns with the state entirely untouched; and
no public call ever changes `start_addr` or `end_addr`. -/
theorem frame_effects (base : Nat) (s : AllocState) (hinits : s.start_addr ≠ 0) :
    init base s = s ∧
    (∀ p s', free s p = some s' →
      s'.free_addr = s.free_addr ∧ s'.start_addr = s.start_addr ∧
      s'.end_addr = s.end_addr) ∧
    (∀ n b bs r s', n ≠ 0 →
      findBest s.mem n (s.end_addr + 1) s.free_list_head none = some (some (b, bs)) →
      malloc base s n = some (r, s') →
      s'.free_addr = s.free_addr ∧ s'.start_addr = s.start_addr ∧
      s'.end_addr = s.end_addr) ∧
    (∀ p k, k ≠ 0 → k ≤ getSize s.mem (BLOCK_TO_HEADER p) →
      realloc base s (some p) k = some (some p, s)) ∧
    (∀ op r s', step base s op = some (r, s') →
      s'.start_addr = s.start_addr ∧ s'.end_addr = s.end_addr) := by
  refine ⟨init_noop base s hinits, ?_, ?_, ?_, ?_⟩
  · intro p s' hf
    have h := free_frame s p s' hf
    exact ⟨h.1, h.2.1, h.2.2.1⟩
  · intro n b bs r s' hn hfb hml
    have h := malloc_hit_frame base n b bs s r s' hinits hn hfb hml
    exact ⟨h.2.1, h.2.2.1, h.2.2.2.1⟩
  · intro p k hk0 hkle
    simp [realloc, hk0, if_pos hkle]
  · intro op r s' hstep
    exact step_frame_init base s op r s' hinits hstep

theorem frame_effects_witness :
    init 16 w1 = w1 ∧
    (∃ s', free w1 (some 48) = some s' ∧
      s'.free_addr = w1.free_addr ∧ s'.start_addr = w1.start_addr ∧
      s'.end_addr = w1.end_addr) ∧
    (∃ s', malloc 16 w2 7 = some (some 48, s') ∧
      s'.free_addr = w2.free_addr ∧ s'.start_addr = w2.start_addr ∧
      s'.end_addr = w2.end_addr) ∧
    realloc 16 w1 (some 48) 3 = some (some 48, w1) :=
  ⟨(frame_effects 16 w1 (by decide)).1,
   ⟨_, rfl, (frame_effects 16 w1 (by decide)).2.1 (some 48) _ rfl⟩,
   ⟨_, rfl, (frame_effects 16 w2 (by decide)).2.2.1 7 16 20 (some 48) _ (by decide)
     rfl rfl⟩,
   (frame_effects 16 w1 (by decide)).2.2.2.1 48 3 (by decide) (by decide)⟩

end BFAlloc
